import Mathlib

/-!
# Verification of the invoice generation service

A shallow embedding of `src/services/invoices.py`: the timesheet reader,
entry filters and validators, the hour aggregator, the template section
pruner, the invoice-sheet populator and the formula rebuilder, together
with theorems about them.

Conventions of the embedding:
* Python floats are modelled as exact rationals (`Rat`).
* Python dicts (and `defaultdict`s) are association lists updated in place;
  key order is insertion order, exactly as in CPython.
* Python strings are Lean `String`s; the loop-free helpers below
  (`pyStrip`, `pyUpper`, ...) implement the `str` methods structurally on
  the character list so that they evaluate by kernel reduction.
* Dates are abstracted to an order-preserving ordinal (`Nat`); a missing
  date is `none`.
-/

/-! ## Python string primitives -/

/-- The whitespace characters recognised by `str.strip()` (ASCII subset). -/
def isPySpace (c : Char) : Bool := c = ' ' || c = '\t' || c = '\n' || c = '\r'

/-- `s.strip()`. -/
def pyStrip (s : String) : String :=
  ⟨((s.data.dropWhile isPySpace).reverse.dropWhile isPySpace).reverse⟩

/-- `s.rstrip()` on a character list. -/
def pyRStrip (l : List Char) : List Char :=
  (l.reverse.dropWhile isPySpace).reverse

/-- `s.upper()`. -/
def pyUpper (s : String) : String := ⟨s.data.map Char.toUpper⟩

/-- `s.lower()`. -/
def pyLower (s : String) : String := ⟨s.data.map Char.toLower⟩

/-- Python's `pat in s` substring test, on character lists. -/
def listContainsSub (pat : List Char) : List Char → Bool
  | [] => pat.isEmpty
  | c :: rest => pat.isPrefixOf (c :: rest) || listContainsSub pat rest

/-- Python's `pat in s` substring test for strings. -/
def strContainsSub (s pat : String) : Bool := listContainsSub pat.data s.data

/-- `s.startswith(pat)`. -/
def pyStartsWith (s pat : String) : Bool := pat.data.isPrefixOf s.data

/-- `":" in s` (single-character membership). -/
def hasColon (s : String) : Bool := s.data.contains ':'

/-- Stable ordered insertion, the inner step of `pySorted`. -/
def insertLe (le : α → α → Bool) (x : α) : List α → List α
  | [] => [x]
  | y :: ys => if le x y then x :: y :: ys else y :: insertLe le x ys

/-- Stable sort; extensionally equal to Python's stable `sorted`/`list.sort`
for any total preorder `le`. -/
def pySorted (le : α → α → Bool) : List α → List α
  | [] => []
  | x :: xs => insertLe le x (pySorted le xs)

/-! ## Data model -/

/-- One timesheet entry, as produced by `read_timesheet_data`:
keys `project_id, date, employee, hours, task, phase, wid`. -/
structure Entry where
  project_id : String
  date : Option Nat
  employee : String
  hours : Rat
  task : String
  phase : String
  wid : String
deriving DecidableEq

/-- `NON_PROJECT_NAMES` from `core/config.py`. -/
def NON_PROJECT_NAMES : List String :=
  ["office", "vacation", "holiday", "sick", "personal time"]

/-- Valid billable task codes. -/
def BILLABLE_TASK_CODES : List String := ["DP", "PM", "3-D", "D-D", "M"]

/-- Valid billable phase codes. -/
def BILLABLE_PHASE_CODES : List String := ["PD", "SD", "DD", "CD", "CA", "M"]

/-- Phase processing order. -/
def PHASE_ORDER : List String := ["PD", "SD", "DD", "CD", "CA", "M"]

/-- Task order within a standard (non-meetings) phase. -/
def TASK_ORDER_STANDARD : List String := ["DP", "PM", "3-D", "D-D"]

/-! ## Filtering and validation -/

/-- The non-project test of `filter_non_projects`: the lowercased project id
starts with a non-project name followed by the colon separator, or equals
the name outright. -/
def isNonProject (e : Entry) : Bool :=
  NON_PROJECT_NAMES.any fun np =>
    pyStartsWith (pyLower e.project_id) (np ++ ":") || pyLower e.project_id == np

/-- One loop iteration of `filter_non_projects`. -/
def filterNonProjectsStep (acc : List Entry × Nat) (e : Entry) : List Entry × Nat :=
  if isNonProject e then (acc.1, acc.2 + 1) else (acc.1 ++ [e], acc.2)

/-- `filter_non_projects`: drop non-project entries, counting the exclusions. -/
def filter_non_projects (entries : List Entry) : List Entry × Nat :=
  entries.foldl filterNonProjectsStep ([], 0)

/-- `filter_zero_hours`: keep entries with strictly positive hours. -/
def filter_zero_hours (entries : List Entry) : List Entry :=
  entries.filter fun e => decide (0 < e.hours)

/-- The two filters composed as `_process_invoices` composes them. -/
def billableEntries (entries : List Entry) : List Entry :=
  filter_zero_hours (filter_non_projects entries).1

/-- `', '.join(sorted(BILLABLE_TASK_CODES))` as evaluated at runtime. -/
def TASK_CODES_SORTED_JOINED : String := "3-D, D-D, DP, M, PM"

/-- `', '.join(sorted(BILLABLE_PHASE_CODES))` as evaluated at runtime. -/
def PHASE_CODES_SORTED_JOINED : String := "CA, CD, DD, M, PD, SD"

/-- The task-code error message of `validate_codes`. -/
def taskCodeError (e : Entry) : String :=
  "Invalid Task code '" ++ e.task ++ "' for project '" ++ e.project_id ++
    "' (valid: " ++ TASK_CODES_SORTED_JOINED ++ ")"

/-- The phase-code error message of `validate_codes`. -/
def phaseCodeError (e : Entry) : String :=
  "Invalid Phase code '" ++ e.phase ++ "' for project '" ++ e.project_id ++
    "' (valid: " ++ PHASE_CODES_SORTED_JOINED ++ ")"

/-- `validate_codes`: collect an error per entry with a non-empty invalid
task code, and one per non-empty invalid phase code. -/
def validateCodesStep (errs : List String) (e : Entry) : List String :=
  let errs1 :=
    if e.task ≠ "" ∧ e.task ∉ BILLABLE_TASK_CODES then errs ++ [taskCodeError e] else errs
  if e.phase ≠ "" ∧ e.phase ∉ BILLABLE_PHASE_CODES then errs1 ++ [phaseCodeError e]
  else errs1

/-- The loop of `validate_codes` over `validateCodesStep`. -/
def validate_codes (entries : List Entry) : List String :=
  entries.foldl validateCodesStep []

/-- The error message of `validate_project_ids` (and `parse_project_id`). -/
def missingColonError (pid : String) : String :=
  "Project ID missing colon separator: '" ++ pid ++ "'"

/-- The loop of `validate_project_ids`, carrying the `seen` set. -/
def validate_project_ids_aux : List Entry → List String → List String
  | [], _ => []
  | e :: rest, seen =>
    if e.project_id ∈ seen then validate_project_ids_aux rest seen
    else
      if hasColon e.project_id then validate_project_ids_aux rest (seen ++ [e.project_id])
      else missingColonError e.project_id ::
        validate_project_ids_aux rest (seen ++ [e.project_id])

/-- `validate_project_ids`: one error per distinct colon-free project id,
reported at its first occurrence. -/
def validate_project_ids (entries : List Entry) : List String :=
  validate_project_ids_aux entries []

/-! ## Aggregation -/

/-- Association lists standing in for Python dicts. -/
abbrev HoursDict := List ((String × String) × Rat)

/-- `d.get(k, dflt)` on an association list. -/
def lookupD [DecidableEq κ] (l : List (κ × β)) (k : κ) (dflt : β) : β :=
  match l with
  | [] => dflt
  | (k', v) :: rest => if k' = k then v else lookupD rest k dflt

/-- `d[k] += v` on an association list (defaultdict-float update: a missing
key is created at the end, insertion order preserved). -/
def addTo [DecidableEq κ] (l : List (κ × Rat)) (k : κ) (v : Rat) : List (κ × Rat) :=
  match l with
  | [] => [(k, v)]
  | (k', x) :: rest => if k' = k then (k', x + v) :: rest else (k', x) :: addTo rest k v

/-- `hours_dict.get((task, phase), 0)`. -/
def hdGet (hd : HoursDict) (k : String × String) : Rat := lookupD hd k 0

/-- `result[project_id][(task, phase)] += hours` on the nested structure of
`aggregate_hours`. -/
def outerAdd (m : List (String × HoursDict)) (p : String) (k : String × String) (v : Rat) :
    List (String × HoursDict) :=
  match m with
  | [] => [(p, addTo [] k v)]
  | (q, d) :: rest =>
    if q = p then (q, addTo d k v) :: rest else (q, d) :: outerAdd rest p k v

/-- One loop iteration of `aggregate_hours` (`if task and phase:`). -/
def aggregateStep (m : List (String × HoursDict)) (e : Entry) : List (String × HoursDict) :=
  if e.task ≠ "" ∧ e.phase ≠ "" then outerAdd m e.project_id (e.task, e.phase) e.hours
  else m

/-- `aggregate_hours`: accumulate hours by project and (task, phase),
skipping entries whose task or phase code is empty. -/
def aggregate_hours (entries : List Entry) : List (String × HoursDict) :=
  entries.foldl aggregateStep []

/-- `grouped[project_id].append(entry)` on the structure of `group_by_project`. -/
def groupAdd (m : List (String × List Entry)) (p : String) (e : Entry) :
    List (String × List Entry) :=
  match m with
  | [] => [(p, [e])]
  | (q, l) :: rest =>
    if q = p then (q, l ++ [e]) :: rest else (q, l) :: groupAdd rest p e

/-- The grouping loop of `group_by_project` before the per-project sort. -/
def groupRaw (entries : List Entry) : List (String × List Entry) :=
  entries.foldl (fun m e => groupAdd m e.project_id e) []

/-- The sort key `e["date"] or date.min` of `group_by_project`. -/
def dateKey (e : Entry) : Nat := e.date.getD 0

/-- The per-project date sort of `group_by_project` (Python's stable sort). -/
def sortEntriesByDate (l : List Entry) : List Entry :=
  pySorted (fun a b => decide (dateKey a ≤ dateKey b)) l

/-- `group_by_project`: partition entries by project, each partition sorted
by date (missing dates first). -/
def group_by_project (entries : List Entry) : List (String × List Entry) :=
  (groupRaw entries).map fun pr => (pr.1, sortEntriesByDate pr.2)

/-! ## The validation pipeline -/

/-- The distinct failure modes of the `_process_invoices` validation stage.
In the source all three are `ValueError`s distinguished by their message:
the joined project-id violations, the joined code violations, and the fixed
no-billable-projects message. -/
inductive PError where
  | invalidProjectIds (msgs : List String)
  | invalidCodes (msgs : List String)
  | noBillableData
deriving DecidableEq

/-- The filter/validate/aggregate core of `_process_invoices` (the stage
before any workbook is created): filter non-projects, filter non-positive
hours, batch-validate project ids, batch-validate codes, require a
non-empty billable remainder, then aggregate and group. An `Except.error`
means the pipeline raises before any output workbook exists. -/
def processEntries (entries : List Entry) :
    Except PError (List (String × HoursDict) × List (String × List Entry)) :=
  let filtered := billableEntries entries
  let projectErrors := validate_project_ids filtered
  if projectErrors ≠ [] then .error (.invalidProjectIds projectErrors)
  else
    let codeErrors := validate_codes filtered
    if codeErrors ≠ [] then .error (.invalidCodes codeErrors)
    else if filtered = [] then .error .noBillableData
    else .ok (aggregate_hours filtered, group_by_project filtered)

/-! ## Template layout and section pruning -/

/-- One phase section of `TEMPLATE_STRUCTURE["phases"]`: header row, task
rows, subtotal row (template-relative, 1-indexed). -/
structure PhaseSection where
  header : Nat
  tasks : List Nat
  subtotal : Nat
deriving DecidableEq

/-- `TEMPLATE_STRUCTURE["phases"]`. Only the six codes of `PHASE_ORDER` are
ever looked up. -/
def TEMPLATE_STRUCTURE_phases (code : String) : PhaseSection :=
  if code = "PD" then ⟨10, [11, 12, 13, 14], 15⟩
  else if code = "SD" then ⟨16, [17, 18, 19, 20], 21⟩
  else if code = "DD" then ⟨22, [23, 24, 25, 26], 27⟩
  else if code = "CD" then ⟨28, [29, 30, 31, 32], 33⟩
  else if code = "CA" then ⟨34, [35, 36, 37, 38], 39⟩
  else ⟨40, [41], 42⟩

/-- `calculate_phase_hours`: total hours per phase code. -/
def calculate_phase_hours (hd : HoursDict) : List (String × Rat) :=
  hd.foldl (fun acc kv => addTo acc kv.1.2 kv.2) []

/-- `phase_totals.get(phase_code, 0)` over `calculate_phase_hours`. -/
def phaseTotal (hd : HoursDict) (pc : String) : Rat :=
  lookupD (calculate_phase_hours hd) pc 0

/-- The rows one phase contributes to `calculate_rows_to_delete`: the whole
section when the phase total is zero; otherwise, for non-meetings phases,
the task rows whose (task, phase) total is zero. -/
def phaseDeleteRows (hd : HoursDict) (pc : String) : List Nat :=
  let info := TEMPLATE_STRUCTURE_phases pc
  if phaseTotal hd pc = 0 then info.header :: info.tasks ++ [info.subtotal]
  else if pc ≠ "M" then
    (TASK_ORDER_STANDARD.zip info.tasks).filterMap fun tr =>
      if hdGet hd (tr.1, pc) = 0 then some tr.2 else none
  else []

/-- Descending numeric sort (`sorted(..., reverse=True)`). -/
def sortDesc (l : List Nat) : List Nat := pySorted (fun a b => decide (b ≤ a)) l

/-- `calculate_rows_to_delete`: template-relative rows to delete, in
descending order. -/
def calculate_rows_to_delete (hd : HoursDict) : List Nat :=
  sortDesc (PHASE_ORDER.foldl (fun acc pc => acc ++ phaseDeleteRows hd pc) [])

/-- The Meetings-row aggregate of `populate_invoice_sheet`: the sum of hours
over every (task, phase) key whose phase is `"M"`. -/
def meetingsHours (hd : HoursDict) : Rat :=
  ((hd.filter fun kv => decide (kv.1.2 = "M")).map Prod.snd).sum

/-- The Units-column writes one phase receives in `populate_invoice_sheet`:
the single aggregate Meetings row for phase `"M"`, else one write per
standard task code. -/
def phaseUnitWrites (hd : HoursDict) (pc : String) : List (Nat × Rat) :=
  let info := TEMPLATE_STRUCTURE_phases pc
  if pc = "M" then [(info.tasks.headD 0, meetingsHours hd)]
  else (TASK_ORDER_STANDARD.zip info.tasks).map fun tr => (tr.2, hdGet hd (tr.1, pc))

/-- The (row, value) pairs `populate_invoice_sheet` writes in the Units
column (column C), in write order. -/
def populate_unit_writes (hd : HoursDict) : List (Nat × Rat) :=
  PHASE_ORDER.foldl (fun acc pc => acc ++ phaseUnitWrites hd pc) []

/-! ## Sheet names -/

/-- `MAX_SHEET_NAME_LENGTH`: the Excel sheet name limit. -/
def MAX_SHEET_NAME_LENGTH : Nat := 31

/-- The characters `make_sheet_name` replaces with a hyphen. -/
def INVALID_SHEET_CHARS : List Char := ['\\', '/', '?', '*', '[', ']']

/-- `name.replace(":", " -")` on the character list. -/
def replaceColonChars : List Char → List Char
  | [] => []
  | c :: rest => (if c = ':' then [' ', '-'] else [c]) ++ replaceColonChars rest

/-- `s.replace(char, '-')` for a single character. -/
def replaceChar (c : Char) (l : List Char) : List Char :=
  l.map fun x => if x = c then '-' else x

/-- The sequential invalid-character replacement loop of `make_sheet_name`. -/
def sanitizeInvalid (l : List Char) : List Char :=
  INVALID_SHEET_CHARS.foldl (fun acc c => replaceChar c acc) l

/-- `make_sheet_name`: sanitize the project identifier and truncate it so
that the suffixed result fits the sheet-name limit. -/
def make_sheet_name (name suffix : String) : String :=
  let sanitized := sanitizeInvalid (replaceColonChars name.data)
  let maxBase := MAX_SHEET_NAME_LENGTH - suffix.length
  let base := if sanitized.length > maxBase then pyRStrip (sanitized.take maxBase) else sanitized
  ⟨base ++ suffix.data⟩

/-! ## Reading timesheet data -/

/-- A raw cell value as surfaced by the table reader: a string, a float, or
a date-like value (`datetime`, abstracted to its date ordinal). A `none`
cell (in `Option Val`) is Python `None`. -/
inductive Val where
  | s (t : String)
  | f (q : Rat)
  | dt (d : Nat)
deriving DecidableEq

/-- Python truthiness of a cell value: empty strings and zero are falsy. -/
def truthyVal : Val → Bool
  | .s t => decide (t ≠ "")
  | .f q => decide (q ≠ 0)
  | .dt _ => true

/-- Python truthiness of an optional cell (`None` is falsy). -/
def truthyCell : Option Val → Bool
  | none => false
  | some v => truthyVal v

/-- `str(value)`. Strings are themselves; the numeric and date reprs never
collide with any of the fixed labels the engine matches on. -/
def pyStrVal : Val → String
  | .s t => t
  | .f q => toString q
  | .dt d => "datetime-" ++ toString d

/-- Digits-to-number accumulation. -/
def digitsToNat (l : List Char) : Nat :=
  l.foldl (fun n c => n * 10 + (c.toNat - '0'.toNat)) 0

/-- A non-empty all-digit character run. -/
def allDigits (l : List Char) : Bool := !l.isEmpty && l.all Char.isDigit

/-- Split a character list on a separator character. -/
def splitChar (c : Char) : List Char → List (List Char)
  | [] => [[]]
  | x :: xs =>
    match splitChar c xs with
    | [] => [[x]]
    | h :: t => if x = c then [] :: h :: t else (x :: h) :: t

/-- `float(s)` for strings: optional surrounding whitespace, optional sign,
decimal digits with an optional fractional part. A string outside this
grammar fails (Python raises `ValueError`). -/
def parseFloatChars (l0 : List Char) : Option Rat :=
  let l1 := ((l0.dropWhile isPySpace).reverse.dropWhile isPySpace).reverse
  let sl :=
    match l1 with
    | '+' :: rest => ((1 : Rat), rest)
    | '-' :: rest => ((-1 : Rat), rest)
    | _ => ((1 : Rat), l1)
  match splitChar '.' sl.2 with
  | [ip] => if allDigits ip then some (sl.1 * digitsToNat ip) else none
  | [ip, fp] =>
    if (allDigits ip || ip.isEmpty) && (allDigits fp || fp.isEmpty) && !(ip.isEmpty && fp.isEmpty)
    then some (sl.1 * ((digitsToNat ip : Rat) + (digitsToNat fp : Rat) / (10 : Rat) ^ fp.length))
    else none
  | _ => none

/-- `float(value)`: floats pass through, strings are parsed, date values
fail (Python raises `TypeError`). -/
def pyFloatVal : Val → Option Rat
  | .f q => some q
  | .s t => parseFloatChars t.data
  | .dt _ => none

/-- Order-preserving date ordinal for a parsed (year, month, day). -/
def mkDateOrdinal (y m d : Nat) : Nat := y * 512 + m * 32 + d

/-- `datetime.strptime(s, "%m/%d/%Y").date()`, abstracted: three
slash-separated digit runs with the month and day in range parse to an
ordinal; anything else fails (calendar fine points such as month lengths
are not modelled). -/
def parseDateMDY (s : String) : Option Nat :=
  match splitChar '/' s.data with
  | [ms, ds, ys] =>
    if allDigits ms && allDigits ds && allDigits ys then
      let m := digitsToNat ms
      let d := digitsToNat ds
      if 1 ≤ m ∧ m ≤ 12 ∧ 1 ≤ d ∧ d ≤ 31 then some (mkDateOrdinal (digitsToNat ys) m d)
      else none
    else none
  | _ => none

/-- The read errors of `read_timesheet_data` that depend on the table
contents: fewer than two rows (`"Input file contains no data rows"`), and a
truthy hours cell `float()` cannot convert (an uncaught `ValueError`). -/
inductive ReadError where
  | inputMissing
  | hoursNotNumeric
deriving DecidableEq

/-- `str(cell).strip() if cell else ""`. -/
def cellStrField (c : Option Val) : String :=
  match c with
  | some v => if truthyVal v then pyStrip (pyStrVal v) else ""
  | none => ""

/-- `str(cell).strip().upper() if cell else ""`. -/
def cellCodeField (c : Option Val) : String :=
  match c with
  | some v => if truthyVal v then pyUpper (pyStrip (pyStrVal v)) else ""
  | none => ""

/-- The date normalisation of `read_timesheet_data`: native date values
pass through, strings are parsed (unparseable strings become `none`),
everything else carries no date. -/
def entryDate (c : Option Val) : Option Nat :=
  match c with
  | some (.dt d) => some d
  | some (.s t) => parseDateMDY t
  | some (.f _) => none
  | none => none

/-- `float(cell) if cell else 0.0` for the Total Adjusted Hours cell, with
the conversion failure surfaced as an error. -/
def rowHours (c : Option Val) : Except ReadError Rat :=
  match c with
  | some v =>
    if truthyVal v then
      match pyFloatVal v with
      | some q => .ok q
      | none => .error .hoursNotNumeric
    else .ok 0
  | none => .ok 0

/-- The error-free hours projection (meaningful when `rowHours` succeeds). -/
def pureHours (c : Option Val) : Rat :=
  match c with
  | some v => if truthyVal v then (pyFloatVal v).getD 0 else 0
  | none => 0

/-- The entry built from one qualifying raw row: column 0 project id,
1 date, 2 employee, 5 Total Adjusted Hours, 6 task, 7 phase, 8 WID. -/
def entryOfRow (row : List (Option Val)) : Entry where
  project_id := cellStrField (row.getD 0 none)
  date := entryDate (row.getD 1 none)
  employee := cellStrField (row.getD 2 none)
  hours := pureHours (row.getD 5 none)
  task := cellCodeField (row.getD 6 none)
  phase := cellCodeField (row.getD 7 none)
  wid := cellStrField (row.getD 8 none)

/-- One row of the reading loop: `Except` result of `entryOfRow`. -/
def rowToEntry (row : List (Option Val)) : Except ReadError Entry :=
  match rowHours (row.getD 5 none) with
  | .error e => .error e
  | .ok _ => .ok (entryOfRow row)

/-- The data-row loop of `read_timesheet_data`: rows shorter than 9 columns
are silently skipped; a failing hours conversion aborts the read. -/
def readRows : List (List (Option Val)) → Except ReadError (List Entry)
  | [] => .ok []
  | row :: rest =>
    if row.length < 9 then readRows rest
    else
      match rowToEntry row with
      | .error e => .error e
      | .ok ent =>
        match readRows rest with
        | .error e => .error e
        | .ok l => .ok (ent :: l)

/-- `read_timesheet_data` from the raw row sequence of the input table
(first row a header): fails when fewer than 2 rows exist, else parses the
data rows. -/
def read_timesheet_data (rows : List (List (Option Val))) : Except ReadError (List Entry) :=
  if rows.length < 2 then .error .inputMissing else readRows (rows.drop 1)

/-! ## Worksheet model and the formula rebuilder -/

/-- The live worksheet: a bounded grid of optional cell values (1-indexed
rows and columns; `maxRow` mirrors openpyxl's `ws.max_row`, which the
rebuilder's in-range cell writes never change). -/
structure Worksheet where
  maxRow : Nat
  cells : Nat → Nat → Option Val

/-- Column B of a worksheet (the description/label column the rebuilder
classifies rows by). -/
def colB (ws : Worksheet) (r : Nat) : Option Val := ws.cells r 2

/-- Column D of a worksheet (where the Total Amount Due label lives). -/
def colD (ws : Worksheet) (r : Nat) : Option Val := ws.cells r 4

/-- The phase-header vocabulary of `rebuild_formulas`. -/
def PHASE_HEADER_LABELS : List String :=
  ["Pre-Design", "Schematic Design", "Design Development", "Construction Documents",
   "Construction Administration", "Meetings w/ Client or Contractor"]

/-- The task-description vocabulary of `rebuild_formulas`. -/
def TASK_ROW_LABELS : List String :=
  ["Design Principal", "Project Management", "3D Model", "Design and Documentation", "Meetings"]

/-- The reimbursable cost-line labels of `rebuild_formulas`. -/
def REIMBURSABLE_COST_LABELS : List String :=
  ["CCI Engineering", "Phipps Printing", "In house plotting(s.f.)"]

/-- `str(cell_b).strip()` for a truthy column-B cell, `none` for a falsy
one (the skipped rows of the scan loops). -/
def labelAt (B : Nat → Option Val) (r : Nat) : Option String :=
  match B r with
  | some v => if truthyVal v then some (pyStrip (pyStrVal v)) else none
  | none => none

/-- Row classification: a phase-header row. -/
def isPhaseHeaderRow (B : Nat → Option Val) (r : Nat) : Bool :=
  match labelAt B r with
  | some s => PHASE_HEADER_LABELS.contains s
  | none => false

/-- Row classification: a task row (the `elif` arm, so phase headers win). -/
def isTaskRow (B : Nat → Option Val) (r : Nat) : Bool :=
  match labelAt B r with
  | some s => !PHASE_HEADER_LABELS.contains s && TASK_ROW_LABELS.contains s
  | none => false

/-- `range(1, ws.max_row + 1)`. -/
def sheetRows (n : Nat) : List Nat := List.range' 1 n

/-- The first scan: all phase-header rows, in order. -/
def phaseHeaderRows (B : Nat → Option Val) (n : Nat) : List Nat :=
  (sheetRows n).filter (isPhaseHeaderRow B)

/-- State of the second scan of `rebuild_formulas` (overall subtotal,
reimbursable block, Total Amount Due row). -/
structure ScanState where
  overall : Option Nat
  reimbSub : Option Nat
  costRows : List Nat
  totalDue : Option Nat
  inReimb : Bool
deriving DecidableEq

/-- Initial state of the second scan. -/
def initScan : ScanState := ⟨none, none, [], none, false⟩

/-- The column-B half of one row of the second scan (the `st1` update). -/
def scanStepLabel (B : Nat → Option Val) (st : ScanState) (r : Nat) : ScanState :=
  match labelAt B r with
  | some s =>
    if s = "Reimbursable" then { st with inReimb := true }
    else if s = "Subtotal" then
      if st.inReimb then { st with reimbSub := some r } else { st with overall := some r }
    else if REIMBURSABLE_COST_LABELS.contains s then { st with costRows := st.costRows ++ [r] }
    else st
  | none => st

/-- The column-D half of one row of the second scan (the Total Amount Due
check, independent of the column-B branch). -/
def scanStepDue (D : Nat → Option Val) (st1 : ScanState) (r : Nat) : ScanState :=
  match D r with
  | some v =>
    if truthyVal v && strContainsSub (pyStrVal v) "Total Amount Due" then
      { st1 with totalDue := some r }
    else st1
  | none => st1

/-- One row of the second scan. -/
def scanStep (B D : Nat → Option Val) (st : ScanState) (r : Nat) : ScanState :=
  scanStepDue D (scanStepLabel B st r) r

/-- The second scan over all rows. -/
def scanStructure (B D : Nat → Option Val) (n : Nat) : ScanState :=
  (sheetRows n).foldl (scanStep B D) initScan

/-- One row of the per-phase span walk: collect task rows; the first
empty-description row after a task row becomes the subtotal row. -/
def spanStep (B : Nat → Option Val) (acc : List Nat × Option Nat) (r : Nat) :
    List Nat × Option Nat :=
  if isTaskRow B r then (acc.1 ++ [r], acc.2)
  else if !truthyCell (B r) then
    if acc.1 ≠ [] ∧ acc.2 = none then (acc.1, some r) else acc
  else acc

/-- The task rows and subtotal row discovered strictly between a phase
header row and the next phase boundary. -/
def phaseSpan (B : Nat → Option Val) (p nxt : Nat) : List Nat × Option Nat :=
  (List.range' (p + 1) (nxt - (p + 1))).foldl (spanStep B) ([], none)

/-- The phase grouping pass: each phase-header row with its span results;
the last phase's boundary is the overall subtotal row, or `max_row` when
none was found. -/
def buildPhases (B : Nat → Option Val) (overall : Option Nat) (n : Nat) :
    List Nat → List (Nat × List Nat × Option Nat)
  | [] => []
  | p :: rest =>
    let nxt :=
      match rest with
      | q :: _ => q
      | [] => match overall with | some o => o | none => n
    let sp := phaseSpan B p nxt
    (p, sp.1, sp.2) :: buildPhases B overall n rest

/-- Phases kept for formula writing: those with at least one task row
(`if phase_tasks:`). -/
def keptPhases (B : Nat → Option Val) (overall : Option Nat) (n : Nat) (ps : List Nat) :
    List (Nat × List Nat × Option Nat) :=
  (buildPhases B overall n ps).filter fun t => !t.2.1.isEmpty

/-- Everything the re-discovery pass of `rebuild_formulas` produces. -/
structure Discovery where
  phases : List (Nat × List Nat × Option Nat)
  overall : Option Nat
  reimbSub : Option Nat
  costRows : List Nat
  totalDue : Option Nat
deriving DecidableEq

/-- The full label-driven re-discovery pass, reading only column B,
column D and the row bound. -/
def discover (B D : Nat → Option Val) (n : Nat) : Discovery :=
  let st := scanStructure B D n
  { phases := keptPhases B st.overall n (phaseHeaderRows B n)
    overall := st.overall
    reimbSub := st.reimbSub
    costRows := st.costRows
    totalDue := st.totalDue }

/-- The re-discovery pass of a worksheet. -/
def discoverWs (ws : Worksheet) : Discovery := discover (colB ws) (colD ws) ws.maxRow

/-- Decimal numeral for formula text. -/
def natStr (n : Nat) : String := toString n

/-- `=C{r}*D{r}`. -/
def costFormula (r : Nat) : String := "=C" ++ natStr r ++ "*D" ++ natStr r

/-- `=SUM(E{a}:E{b})`. -/
def sumRangeE (a b : Nat) : String := "=SUM(E" ++ natStr a ++ ":E" ++ natStr b ++ ")"

/-- `=SUM(C..,C..)` over an explicit row list. -/
def sumListC (rs : List Nat) : String :=
  "=SUM(" ++ String.intercalate "," (rs.map fun r => "C" ++ natStr r) ++ ")"

/-- `=SUM(F..,F..)` over an explicit row list. -/
def sumListF (rs : List Nat) : String :=
  "=SUM(" ++ String.intercalate "," (rs.map fun r => "F" ++ natStr r) ++ ")"

/-- `min(list)` (0 on the empty list, which never occurs). -/
def listMin : List Nat → Nat
  | [] => 0
  | x :: xs => xs.foldl Nat.min x

/-- `max(list)` (0 on the empty list, which never occurs). -/
def listMax : List Nat → Nat
  | [] => 0
  | x :: xs => xs.foldl Nat.max x

/-- Ascending numeric sort (`sorted(...)`). -/
def sortAsc (l : List Nat) : List Nat := pySorted (fun a b => decide (a ≤ b)) l

/-- All discovered task rows, in phase order (`all_task_rows`). -/
def allTaskRows (d : Discovery) : List Nat := d.phases.flatMap fun t => t.2.1

/-- The cost-cell writes: `E = C*D` on every discovered task row. -/
def costWrites (d : Discovery) : List (Nat × Nat × String) :=
  (allTaskRows d).map fun r => (r, 5, costFormula r)

/-- The phase-subtotal writes: `F = SUM(E first:E last)` per kept phase
with a discovered subtotal row. -/
def subtotalWrites (d : Discovery) : List (Nat × Nat × String) :=
  d.phases.filterMap fun t =>
    match t.2.2 with
    | some s => some (s, 6, sumRangeE (listMin t.2.1) (listMax t.2.1))
    | none => none

/-- The subtotal rows collected while writing phase subtotals
(`phase_subtotal_list`). -/
def phaseSubtotalList (d : Discovery) : List Nat :=
  d.phases.filterMap fun t => t.2.2

/-- The overall-subtotal writes: explicit-list sums for the Units and Total
cells, each written only when its source list is non-empty. -/
def overallWrites (d : Discovery) : List (Nat × Nat × String) :=
  match d.overall with
  | some o =>
    (if allTaskRows d ≠ [] then [(o, 3, sumListC (sortAsc (allTaskRows d)))] else []) ++
      (if phaseSubtotalList d ≠ [] then [(o, 6, sumListF (sortAsc (phaseSubtotalList d)))] else [])
  | none => []

/-- The reimbursable-subtotal write. -/
def reimbWrites (d : Discovery) : List (Nat × Nat × String) :=
  match d.reimbSub with
  | some rs =>
    if d.costRows ≠ [] then [(rs, 6, sumRangeE (listMin d.costRows) (listMax d.costRows))]
    else []
  | none => []

/-- The Total Amount Due formula: the overall subtotal plus the
reimbursable subtotal when a reimbursable block exists. -/
def totalDueFormula (o : Nat) (reimb : Option Nat) : String :=
  match reimb with
  | some rs => "=F" ++ natStr o ++ "+F" ++ natStr rs
  | none => "=F" ++ natStr o

/-- The Total Amount Due write. -/
def totalDueWrites (d : Discovery) : List (Nat × Nat × String) :=
  match d.totalDue, d.overall with
  | some t, some o => [(t, 6, totalDueFormula o d.reimbSub)]
  | _, _ => []

/-- Every write of `rebuild_formulas`, in program order. -/
def rebuildWrites (d : Discovery) : List (Nat × Nat × String) :=
  costWrites d ++ subtotalWrites d ++ overallWrites d ++ reimbWrites d ++ totalDueWrites d

/-- `ws.cell(row, column, value)` for a formula string. -/
def setCell (ws : Worksheet) (r c : Nat) (v : Val) : Worksheet :=
  { ws with cells := fun r' c' => if r' = r ∧ c' = c then some v else ws.cells r' c' }

/-- Apply a write list in order. -/
def applyWrites (ws : Worksheet) (l : List (Nat × Nat × String)) : Worksheet :=
  l.foldl (fun w t => setCell w t.1 t.2.1 (.s t.2.2)) ws

/-- `rebuild_formulas`: re-discover the structure by content and write
fresh formulas. -/
def rebuild_formulas (ws : Worksheet) : Worksheet :=
  applyWrites ws (rebuildWrites (discoverWs ws))

/-- The hour values `create_timesheet_sheet` writes in its column C, one
per entry row (the values its trailing `SUM` row totals). -/
def timesheet_hour_cells (entries : List Entry) : List Rat :=
  entries.map Entry.hours

/-! ## Derived definitions used by the theorems -/

/-- First-occurrence deduplication (the effect of the `seen` set in
`validate_project_ids`). -/
def dedupFirstAux : List String → List String → List String
  | [], _ => []
  | x :: xs, seen =>
    if x ∈ seen then dedupFirstAux xs seen else x :: dedupFirstAux xs (seen ++ [x])

/-- First-occurrence deduplication of a string list. -/
def dedupFirst (l : List String) : List String := dedupFirstAux l []

/-- The sum of the hour cells of one project's detail sheet: the entries
`group_by_project` assigns to the project, as written by
`create_timesheet_sheet`. -/
def detailSheetHours (entries : List Entry) (p : String) : Rat :=
  (timesheet_hour_cells (lookupD (group_by_project entries) p [])).sum

/-- The sum of all values in one project's `HourMatrix` slice
(`aggregate_hours entries` at `p`). -/
def matrixSliceSum (entries : List Entry) (p : String) : Rat :=
  ((lookupD (aggregate_hours entries) p []).map Prod.snd).sum

/-- The total of the Units values `populate_invoice_sheet` writes. -/
def writtenUnitsSum (hd : HoursDict) : Rat :=
  ((populate_unit_writes hd).map Prod.snd).sum

/-- The total of all values of a per-project hours dict. -/
def dictTotal (hd : HoursDict) : Rat := (hd.map Prod.snd).sum

/-- `Except` success test (the read loop continues only on success). -/
def exceptIsOk : Except ε α → Bool
  | .ok _ => true
  | .error _ => false

/-- Entries of a given project. -/
def pidFor (p : String) (e : Entry) : Bool := decide (e.project_id = p)

/-- Entries carrying both a non-empty task and a non-empty phase code (the
aggregation guard `if task and phase:`). -/
def codedEntry (e : Entry) : Bool := decide (e.task ≠ "") && decide (e.phase ≠ "")

/-- Entries of a project that aggregation counts. -/
def codedFor (p : String) (e : Entry) : Bool := pidFor p e && codedEntry e

/-- Entries of a project that appear on the detail sheet but not in the
`HourMatrix` (task or phase code empty). -/
def uncodedFor (p : String) (e : Entry) : Bool := pidFor p e && !codedEntry e

/-- The last write a write list makes to one cell. -/
def lastWriteTo (l : List (Nat × Nat × String)) (r c : Nat) : Option String :=
  l.foldl (fun acc t => if t.1 = r ∧ t.2.1 = c then some t.2.2 else acc) none

/-- All span-discovered rows of one phase triple: its task rows and, when
present, its subtotal row. -/
def spanElems (tr : Nat × List Nat × Option Nat) : List Nat :=
  tr.2.1 ++ (match tr.2.2 with | some s => [s] | none => [])

/-- A concrete post-pruning worksheet used to instantiate the formula
rebuilder: one surviving phase (Schematic Design) with one task row, an
overall subtotal, a reimbursable block and a Total Amount Due row. -/
def exampleCells (r c : Nat) : Option Val :=
  if c = 2 then
    if r = 10 then some (.s "Schematic Design")
    else if r = 11 then some (.s "Project Management")
    else if r = 13 then some (.s "Subtotal")
    else if r = 14 then some (.s "Reimbursable")
    else if r = 15 then some (.s "CCI Engineering")
    else if r = 16 then some (.s "Subtotal")
    else none
  else if c = 4 then
    if r = 17 then some (.s "Total Amount Due:") else none
  else none

/-- The concrete example worksheet. -/
def exampleSheet : Worksheet := ⟨17, exampleCells⟩

/-! ## General helper lemmas -/

theorem insertLe_perm (le : α → α → Bool) (x : α) (l : List α) :
    List.Perm (insertLe le x l) (x :: l) := by
  induction l with
  | nil => simp [insertLe]
  | cons y ys ih =>
    by_cases h : le x y = true
    · simp [insertLe, h]
    · simp only [insertLe, if_neg h]
      exact (ih.cons y).trans (List.Perm.swap x y ys)

theorem pySorted_perm (le : α → α → Bool) (l : List α) :
    List.Perm (pySorted le l) l := by
  induction l with
  | nil => exact List.Perm.refl []
  | cons x xs ih => exact (insertLe_perm le x (pySorted le xs)).trans (ih.cons x)

theorem mem_pySorted (le : α → α → Bool) (l : List α) (x : α) :
    x ∈ pySorted le l ↔ x ∈ l :=
  (pySorted_perm le l).mem_iff

theorem insertLe_pairwise (le : α → α → Bool)
    (htrans : ∀ a b c, le a b = true → le b c = true → le a c = true)
    (htot : ∀ a b, le a b = true ∨ le b a = true)
    (x : α) (l : List α) (hl : l.Pairwise fun a b => le a b = true) :
    (insertLe le x l).Pairwise fun a b => le a b = true := by
  induction l with
  | nil => simp [insertLe]
  | cons y ys ih =>
    rw [List.pairwise_cons] at hl
    obtain ⟨hy, hys⟩ := hl
    by_cases h : le x y = true
    · simp only [insertLe, if_pos h]
      refine List.pairwise_cons.2 ⟨?_, List.pairwise_cons.2 ⟨hy, hys⟩⟩
      intro b hb
      rcases List.mem_cons.1 hb with rfl | hb
      · exact h
      · exact htrans x y b h (hy b hb)
    · simp only [insertLe, if_neg h]
      refine List.pairwise_cons.2 ⟨?_, ih hys⟩
      intro b hb
      have hb' : b = x ∨ b ∈ ys := by
        simpa using (insertLe_perm le x ys).mem_iff.mp hb
      rcases hb' with rfl | hb'
      · rcases htot y b with hyb | hby
        · exact hyb
        · exact absurd hby h
      · exact hy b hb'

theorem pySorted_pairwise (le : α → α → Bool)
    (htrans : ∀ a b c, le a b = true → le b c = true → le a c = true)
    (htot : ∀ a b, le a b = true ∨ le b a = true) (l : List α) :
    (pySorted le l).Pairwise fun a b => le a b = true := by
  induction l with
  | nil => simp [pySorted]
  | cons x xs ih => exact insertLe_pairwise le htrans htot x (pySorted le xs) ih

/-! ## Sheet-name safety (C8) -/

theorem replaceColonChars_no_colon (l : List Char) : ':' ∉ replaceColonChars l := by
  induction l with
  | nil => simp [replaceColonChars]
  | cons c rest ih =>
    by_cases h : c = ':'
    · simp [replaceColonChars, h, ih]
    · simp [replaceColonChars, h, ih, Ne.symm h]

theorem mem_replaceChar_cases {c a : Char} {l : List Char} (h : c ∈ replaceChar a l) :
    c = '-' ∨ (c ∈ l ∧ c ≠ a) := by
  unfold replaceChar at h
  obtain ⟨x, hx, hxc⟩ := List.mem_map.1 h
  by_cases hxa : x = a
  · subst hxa
    simp at hxc
    exact Or.inl hxc.symm
  · simp [hxa] at hxc
    subst hxc
    exact Or.inr ⟨hx, hxa⟩

theorem mem_sanitizeInvalid {c : Char} {l : List Char} (h : c ∈ sanitizeInvalid l) :
    c = '-' ∨ (c ∈ l ∧ c ∉ INVALID_SHEET_CHARS) := by
  simp only [sanitizeInvalid, INVALID_SHEET_CHARS, List.foldl_cons, List.foldl_nil] at h
  rcases mem_replaceChar_cases h with h | ⟨h, h6⟩
  · exact Or.inl h
  rcases mem_replaceChar_cases h with h | ⟨h, h5⟩
  · exact Or.inl h
  rcases mem_replaceChar_cases h with h | ⟨h, h4⟩
  · exact Or.inl h
  rcases mem_replaceChar_cases h with h | ⟨h, h3⟩
  · exact Or.inl h
  rcases mem_replaceChar_cases h with h | ⟨h, h2⟩
  · exact Or.inl h
  rcases mem_replaceChar_cases h with h | ⟨h, h1⟩
  · exact Or.inl h
  refine Or.inr ⟨h, ?_⟩
  simp [INVALID_SHEET_CHARS]
  exact ⟨h1, h2, h3, h4, h5, h6⟩

theorem mem_pyRStrip {c : Char} {l : List Char} (h : c ∈ pyRStrip l) : c ∈ l := by
  unfold pyRStrip at h
  rw [List.mem_reverse] at h
  have := (List.dropWhile_sublist isPySpace (l := l.reverse)).mem h
  rwa [List.mem_reverse] at this

theorem length_pyRStrip_le (l : List Char) : (pyRStrip l).length ≤ l.length := by
  unfold pyRStrip
  rw [List.length_reverse]
  calc (l.reverse.dropWhile isPySpace).length ≤ l.reverse.length :=
        (List.dropWhile_sublist isPySpace).length_le
    _ = l.length := List.length_reverse l

theorem make_sheet_name_spec (name suffix : String)
    (hs : suffix.length ≤ MAX_SHEET_NAME_LENGTH)
    (hc : ∀ c ∈ suffix.data, c ∉ INVALID_SHEET_CHARS ∧ c ≠ ':') :
    (make_sheet_name name suffix).length ≤ MAX_SHEET_NAME_LENGTH ∧
      ∀ c ∈ (make_sheet_name name suffix).data, c ∉ INVALID_SHEET_CHARS ∧ c ≠ ':' := by
  unfold make_sheet_name
  set sanitized := sanitizeInvalid (replaceColonChars name.data) with hsan
  set maxBase := MAX_SHEET_NAME_LENGTH - suffix.length with hmb
  set base := if sanitized.length > maxBase then pyRStrip (sanitized.take maxBase) else sanitized
    with hbase
  have hbase_len : base.length ≤ maxBase := by
    rw [hbase]
    split
    · calc (pyRStrip (sanitized.take maxBase)).length ≤ (sanitized.take maxBase).length :=
            length_pyRStrip_le _
        _ ≤ maxBase := by rw [List.length_take]; exact Nat.min_le_left _ _
    · omega
  have hbase_mem : ∀ c ∈ base, c ∉ INVALID_SHEET_CHARS ∧ c ≠ ':' := by
    intro c hcmem
    have hcs : c ∈ sanitized := by
      rw [hbase] at hcmem
      rcases Decidable.em (sanitized.length > maxBase) with hgt | hle
      · rw [if_pos hgt] at hcmem
        exact (List.take_sublist maxBase sanitized).mem (mem_pyRStrip hcmem)
      · rwa [if_neg hle] at hcmem
    rcases mem_sanitizeInvalid hcs with rfl | ⟨hmem, hninv⟩
    · refine ⟨by simp [INVALID_SHEET_CHARS], by simp⟩
    · exact ⟨hninv, fun hcolon => replaceColonChars_no_colon name.data (hcolon ▸ hmem)⟩
  constructor
  · show (String.mk (base ++ suffix.data)).length ≤ MAX_SHEET_NAME_LENGTH
    have hlen : (String.mk (base ++ suffix.data)).length = base.length + suffix.data.length :=
      List.length_append base suffix.data
    rw [hlen]
    have hsuf : suffix.data.length = suffix.length := rfl
    omega
  · intro c hcmem
    have : c ∈ base ++ suffix.data := hcmem
    rcases List.mem_append.1 this with hcb | hcsuf
    · exact hbase_mem c hcb
    · exact hc c hcsuf

/-- C8: for every project identifier and both assembler suffixes (" A" for
the invoice sheet, " B" for the detail sheet), `make_sheet_name` returns a
name of at most `MAX_SHEET_NAME_LENGTH` (31) characters containing no
sheet-name-illegal character and no colon. -/
theorem make_sheet_name_safe (name : String) :
    ((make_sheet_name name " A").length ≤ MAX_SHEET_NAME_LENGTH ∧
      ∀ c ∈ (make_sheet_name name " A").data, c ∉ INVALID_SHEET_CHARS ∧ c ≠ ':') ∧
    ((make_sheet_name name " B").length ≤ MAX_SHEET_NAME_LENGTH ∧
      ∀ c ∈ (make_sheet_name name " B").data, c ∉ INVALID_SHEET_CHARS ∧ c ≠ ':') :=
  ⟨make_sheet_name_spec name " A" (by decide) (by decide),
   make_sheet_name_spec name " B" (by decide) (by decide)⟩

/-! ## Filtering and validation lemmas (C7, C10) -/

theorem filter_non_projects_foldl (l : List Entry) :
    ∀ acc : List Entry × Nat,
      (l.foldl filterNonProjectsStep acc).1 = acc.1 ++ l.filter fun e => !isNonProject e := by
  induction l with
  | nil => intro acc; simp
  | cons e rest ih =>
    intro acc
    by_cases h : isNonProject e
    · simp [filterNonProjectsStep, h, ih]
    · simp [filterNonProjectsStep, h, ih (acc.1 ++ [e], acc.2)]

theorem filter_non_projects_fst (entries : List Entry) :
    (filter_non_projects entries).1 = entries.filter fun e => !isNonProject e := by
  simpa using filter_non_projects_foldl entries ([], 0)

theorem mem_billableEntries {e : Entry} {entries : List Entry} :
    e ∈ billableEntries entries ↔ e ∈ entries ∧ isNonProject e = false ∧ 0 < e.hours := by
  unfold billableEntries filter_zero_hours
  rw [filter_non_projects_fst]
  simp only [List.mem_filter, Bool.not_eq_true', decide_eq_true_eq]
  tauto

theorem billableEntries_eq_nil {entries : List Entry}
    (h : ∀ e ∈ entries, isNonProject e = true ∨ e.hours ≤ 0) :
    billableEntries entries = [] := by
  rw [List.eq_nil_iff_forall_not_mem]
  intro e he
  obtain ⟨hmem, hnp, hpos⟩ := mem_billableEntries.1 he
  rcases h e hmem with h1 | h1
  · rw [hnp] at h1; cases h1
  · exact absurd hpos (not_lt.2 h1)

theorem validate_codes_foldl_of_valid (l : List Entry)
    (h : ∀ e ∈ l, (e.task = "" ∨ e.task ∈ BILLABLE_TASK_CODES) ∧
      (e.phase = "" ∨ e.phase ∈ BILLABLE_PHASE_CODES)) :
    ∀ errs, l.foldl validateCodesStep errs = errs := by
  induction l with
  | nil => intro errs; simp
  | cons e rest ih =>
    intro errs
    have he := h e (List.mem_cons_self e rest)
    have hstep : validateCodesStep errs e = errs := by
      unfold validateCodesStep
      have h1 : ¬(e.task ≠ "" ∧ e.task ∉ BILLABLE_TASK_CODES) := by tauto
      have h2 : ¬(e.phase ≠ "" ∧ e.phase ∉ BILLABLE_PHASE_CODES) := by tauto
      simp [h1, h2]
    rw [List.foldl_cons, hstep]
    exact ih (fun e' he' => h e' (List.mem_cons_of_mem e he')) errs

theorem validate_codes_eq_nil (l : List Entry)
    (h : ∀ e ∈ l, (e.task = "" ∨ e.task ∈ BILLABLE_TASK_CODES) ∧
      (e.phase = "" ∨ e.phase ∈ BILLABLE_PHASE_CODES)) :
    validate_codes l = [] :=
  validate_codes_foldl_of_valid l h []

theorem validate_project_ids_aux_eq_nil (l : List Entry)
    (h : ∀ e ∈ l, hasColon e.project_id = true) :
    ∀ seen, validate_project_ids_aux l seen = [] := by
  induction l with
  | nil => intro seen; rfl
  | cons e rest ih =>
    intro seen
    have he := h e (List.mem_cons_self e rest)
    have hrest := fun e' he' => h e' (List.mem_cons_of_mem e he')
    unfold validate_project_ids_aux
    by_cases hseen : e.project_id ∈ seen
    · simp [hseen, ih hrest]
    · simp [hseen, he, ih hrest]

theorem validate_project_ids_eq_nil (l : List Entry)
    (h : ∀ e ∈ l, hasColon e.project_id = true) :
    validate_project_ids l = [] :=
  validate_project_ids_aux_eq_nil l h []

/-- C7: when every entry is excluded by the non-project filter or by the
zero/negative-hour filter, the pipeline fails with the distinct
`NoBillableData` error — after both filters and both validation passes —
and produces no output. -/
theorem pipeline_no_billable_data (entries : List Entry)
    (h : ∀ e ∈ entries, isNonProject e = true ∨ e.hours ≤ 0) :
    processEntries entries = .error .noBillableData := by
  have hnil : billableEntries entries = [] := billableEntries_eq_nil h
  unfold processEntries
  rw [hnil]
  rfl

/-- Witness for C7 at a concrete input: a single Office entry. -/
theorem pipeline_no_billable_data_witness :
    (∀ e ∈ [(⟨"Office: 1", none, "Ann", 3, "BD", "NA", "w"⟩ : Entry)],
      isNonProject e = true ∨ e.hours ≤ 0) ∧
    processEntries [⟨"Office: 1", none, "Ann", 3, "BD", "NA", "w"⟩] = .error .noBillableData :=
  ⟨by decide, pipeline_no_billable_data _ (by decide)⟩

/-- C10: identifier and code validation inspect only entries surviving both
filters: when every colon-free-id or invalid-code entry has non-positive
hours or is a non-project entry, the pipeline can never fail with a
validation error. -/
theorem validation_sees_only_billable (entries : List Entry)
    (h : ∀ e ∈ entries,
      (hasColon e.project_id = false ∨
        (e.task ≠ "" ∧ e.task ∉ BILLABLE_TASK_CODES) ∨
        (e.phase ≠ "" ∧ e.phase ∉ BILLABLE_PHASE_CODES)) →
      isNonProject e = true ∨ e.hours ≤ 0) :
    (∀ msgs, processEntries entries ≠ .error (.invalidProjectIds msgs)) ∧
    (∀ msgs, processEntries entries ≠ .error (.invalidCodes msgs)) := by
  have hgood : ∀ e ∈ billableEntries entries,
      hasColon e.project_id = true ∧
        (e.task = "" ∨ e.task ∈ BILLABLE_TASK_CODES) ∧
        (e.phase = "" ∨ e.phase ∈ BILLABLE_PHASE_CODES) := by
    intro e he
    obtain ⟨hmem, hnp, hpos⟩ := mem_billableEntries.1 he
    by_contra hbad
    have hviol : hasColon e.project_id = false ∨
        (e.task ≠ "" ∧ e.task ∉ BILLABLE_TASK_CODES) ∨
        (e.phase ≠ "" ∧ e.phase ∉ BILLABLE_PHASE_CODES) := by
      by_cases h1 : hasColon e.project_id = true
      · by_cases h2 : e.task = "" ∨ e.task ∈ BILLABLE_TASK_CODES
        · by_cases h3 : e.phase = "" ∨ e.phase ∈ BILLABLE_PHASE_CODES
          · exact absurd ⟨h1, h2, h3⟩ hbad
          · exact Or.inr (Or.inr (by tauto))
        · exact Or.inr (Or.inl (by tauto))
      · exact Or.inl (by simpa using h1)
    rcases h e hmem hviol with hc | hc
    · rw [hnp] at hc; cases hc
    · exact absurd hpos (not_lt.2 hc)
  have hpid : validate_project_ids (billableEntries entries) = [] :=
    validate_project_ids_eq_nil _ fun e he => (hgood e he).1
  have hcodes : validate_codes (billableEntries entries) = [] :=
    validate_codes_eq_nil _ fun e he => (hgood e he).2
  constructor <;> intro msgs <;> simp [processEntries, hpid, hcodes] <;> split <;> simp

/-- Witness for C10 at a concrete input: a colon-free id and an invalid task
code occurring only on a zero-hour entry are not reported. -/
theorem validation_sees_only_billable_witness :
    processEntries [(⟨"NoColon", none, "Ann", 0, "BAD", "SD", "w"⟩ : Entry)] ≠
      .error (.invalidProjectIds ["Project ID missing colon separator: 'NoColon'"]) :=
  (validation_sees_only_billable _ (by decide)).1 _

/-! ## Identifier validation (C6) -/

theorem validate_project_ids_aux_eq (l : List Entry) :
    ∀ seen, validate_project_ids_aux l seen =
      ((dedupFirstAux (l.map Entry.project_id) seen).filter fun p => !hasColon p).map
        missingColonError := by
  induction l with
  | nil => intro seen; rfl
  | cons e rest ih =>
    intro seen
    unfold validate_project_ids_aux
    simp only [List.map_cons]
    unfold dedupFirstAux
    by_cases hseen : e.project_id ∈ seen
    · simp only [if_pos hseen]
      exact ih seen
    · simp only [if_neg hseen]
      by_cases hcolon : hasColon e.project_id
      · simp only [if_pos hcolon, List.filter_cons, hcolon, Bool.not_true]
        exact ih (seen ++ [e.project_id])
      · simp only [if_neg hcolon, List.filter_cons]
        have : (!hasColon e.project_id) = true := by
          simp [Bool.not_eq_true']
          exact Bool.eq_false_iff.2 hcolon
        rw [this]
        simp only [List.map_cons, if_pos]
        rw [ih (seen ++ [e.project_id])]

theorem dedupFirstAux_nodup_disjoint (l : List String) :
    ∀ seen, (dedupFirstAux l seen).Nodup ∧ ∀ x ∈ dedupFirstAux l seen, x ∉ seen := by
  induction l with
  | nil => intro seen; simp [dedupFirstAux]
  | cons y ys ih =>
    intro seen
    unfold dedupFirstAux
    by_cases hseen : y ∈ seen
    · simp only [if_pos hseen]
      exact ih seen
    · simp only [if_neg hseen]
      obtain ⟨hnd, hdisj⟩ := ih (seen ++ [y])
      refine ⟨List.nodup_cons.2 ⟨?_, hnd⟩, ?_⟩
      · intro hy
        exact (hdisj y hy) (by simp)
      · intro x hx
        rcases List.mem_cons.1 hx with rfl | hx
        · exact hseen
        · intro hxs
          exact (hdisj x hx) (by simp [hxs])

theorem mem_dedupFirstAux (l : List String) :
    ∀ seen x, x ∈ dedupFirstAux l seen ↔ x ∈ l ∧ x ∉ seen := by
  induction l with
  | nil => intro seen x; simp [dedupFirstAux]
  | cons y ys ih =>
    intro seen x
    unfold dedupFirstAux
    by_cases hseen : y ∈ seen
    · simp only [if_pos hseen, ih seen x, List.mem_cons]
      constructor
      · rintro ⟨h1, h2⟩; exact ⟨Or.inr h1, h2⟩
      · rintro ⟨h1 | h1, h2⟩
        · subst h1; exact absurd hseen h2
        · exact ⟨h1, h2⟩
    · simp only [if_neg hseen, List.mem_cons, ih (seen ++ [y]) x, List.mem_append,
        List.mem_singleton]
      constructor
      · rintro (rfl | ⟨h1, h2⟩)
        · exact ⟨Or.inl rfl, hseen⟩
        · exact ⟨Or.inr h1, fun hx => h2 (Or.inl hx)⟩
      · rintro ⟨rfl | h1, h2⟩
        · exact Or.inl rfl
        · by_cases hxy : x = y
          · exact Or.inl hxy
          · exact Or.inr ⟨h1, by simp [h2, hxy]⟩

theorem missingColonError_injective : Function.Injective missingColonError := by
  intro p q h
  unfold missingColonError at h
  have hd : "Project ID missing colon separator: '".data ++ (p.data ++ "'".data) =
      "Project ID missing colon separator: '".data ++ (q.data ++ "'".data) := by
    simpa [String.data_append, List.append_assoc] using congrArg String.data h
  have h2 := List.append_cancel_left hd
  have h3 := List.append_cancel_right h2
  cases p
  cases q
  exact congrArg String.mk (by simpa using h3)

/-- C6: identifier validation is batched and deduplicated: the error list
is exactly one message per distinct colon-free project id in
first-occurrence order; when any violation exists the pipeline fails with
the whole collected list (never fail-fast); an input whose billable entries
include project id "NoColon" fails with a batch error containing exactly
one message naming it. -/
theorem validate_project_ids_batched :
    (∀ l : List Entry,
      validate_project_ids l =
        ((dedupFirst (l.map Entry.project_id)).filter fun p => !hasColon p).map
          missingColonError) ∧
    (∀ (l : List Entry) (pid : String), hasColon pid = false → pid ∈ l.map Entry.project_id →
      (validate_project_ids l).count (missingColonError pid) = 1) ∧
    (∀ entries : List Entry, validate_project_ids (billableEntries entries) ≠ [] →
      processEntries entries =
        .error (.invalidProjectIds (validate_project_ids (billableEntries entries)))) ∧
    (∀ entries : List Entry, (∃ e ∈ billableEntries entries, e.project_id = "NoColon") →
      ∃ msgs, processEntries entries = .error (.invalidProjectIds msgs) ∧
        msgs.count (missingColonError "NoColon") = 1) := by
  have ha : ∀ l : List Entry,
      validate_project_ids l =
        ((dedupFirst (l.map Entry.project_id)).filter fun p => !hasColon p).map
          missingColonError := by
    intro l
    exact validate_project_ids_aux_eq l []
  have hb : ∀ (l : List Entry) (pid : String), hasColon pid = false →
      pid ∈ l.map Entry.project_id →
      (validate_project_ids l).count (missingColonError pid) = 1 := by
    intro l pid hnc hmem
    rw [ha l]
    rw [List.count_map_of_injective _ missingColonError missingColonError_injective]
    have hnd : ((dedupFirst (l.map Entry.project_id)).filter fun p => !hasColon p).Nodup :=
      (dedupFirstAux_nodup_disjoint (l.map Entry.project_id) []).1.filter _
    have hpmem : pid ∈ (dedupFirst (l.map Entry.project_id)).filter fun p => !hasColon p := by
      rw [List.mem_filter]
      exact ⟨(mem_dedupFirstAux (l.map Entry.project_id) [] pid).2 ⟨hmem, by simp⟩,
        by simp [hnc]⟩
    exact List.count_eq_one_of_mem hnd hpmem
  refine ⟨ha, hb, ?_, ?_⟩
  · intro entries hne
    simp [processEntries, hne]
  · intro entries ⟨e, he, hpid⟩
    have hmem : "NoColon" ∈ (billableEntries entries).map Entry.project_id :=
      List.mem_map.2 ⟨e, he, hpid⟩
    have hcount := hb (billableEntries entries) "NoColon" (by decide) hmem
    have hne : validate_project_ids (billableEntries entries) ≠ [] := by
      intro h0
      rw [h0] at hcount
      simp at hcount
    exact ⟨validate_project_ids (billableEntries entries),
      by simp [processEntries, hne], hcount⟩

/-- Witness for C6 at a concrete input containing project id "NoColon". -/
theorem validate_project_ids_batched_witness :
    ∃ msgs, processEntries [(⟨"NoColon", none, "Ann", 1, "PM", "SD", "w"⟩ : Entry)] =
        .error (.invalidProjectIds msgs) ∧
      msgs.count (missingColonError "NoColon") = 1 :=
  validate_project_ids_batched.2.2.2 _
    ⟨⟨"NoColon", none, "Ann", 1, "PM", "SD", "w"⟩, by decide, rfl⟩

/-! ## Aggregation and the detail round-trip (C1) -/

theorem sum_addTo [DecidableEq κ] (d : List (κ × Rat)) (k : κ) (v : Rat) :
    ((addTo d k v).map Prod.snd).sum = (d.map Prod.snd).sum + v := by
  induction d with
  | nil => simp [addTo]
  | cons kv rest ih =>
    obtain ⟨k', x⟩ := kv
    by_cases h : k' = k
    · simp [addTo, h]
      ring
    · simp only [addTo, if_neg h, List.map_cons, List.sum_cons, ih]
      ring

theorem lookupD_addTo [DecidableEq κ] (d : List (κ × Rat)) (k k' : κ) (v : Rat) :
    lookupD (addTo d k v) k' 0 = lookupD d k' 0 + if k = k' then v else 0 := by
  induction d with
  | nil =>
    by_cases h : k = k' <;> simp [addTo, lookupD, h]
  | cons kv rest ih =>
    obtain ⟨q, x⟩ := kv
    by_cases hqk : q = k
    · subst hqk
      by_cases hk' : q = k'
      · simp [addTo, lookupD, hk']
      · simp [addTo, lookupD, hk']
    · by_cases hk' : q = k'
      · subst hk'
        have : ¬(k = q) := fun h => hqk h.symm
        simp [addTo, lookupD, hqk, this]
      · simp [addTo, lookupD, hqk, hk', ih]

theorem lookupD_outerAdd (m : List (String × HoursDict)) (p q : String)
    (k : String × String) (v : Rat) :
    lookupD (outerAdd m p k v) q [] =
      if p = q then addTo (lookupD m q []) k v else lookupD m q [] := by
  induction m with
  | nil =>
    by_cases h : p = q <;> simp [outerAdd, lookupD, h]
  | cons rd rest ih =>
    obtain ⟨r, d⟩ := rd
    by_cases hrp : r = p
    · subst hrp
      by_cases hrq : r = q <;> simp [outerAdd, lookupD, hrq]
    · by_cases hrq : r = q
      · subst hrq
        have : ¬(p = r) := fun h => hrp h.symm
        simp [outerAdd, lookupD, hrp, this]
      · simp [outerAdd, lookupD, hrp, hrq, ih]

theorem matrix_sum_foldl (l : List Entry) :
    ∀ (m : List (String × HoursDict)) (p : String),
      ((lookupD (l.foldl aggregateStep m) p []).map Prod.snd).sum =
        ((lookupD m p []).map Prod.snd).sum + ((l.filter (codedFor p)).map Entry.hours).sum := by
  induction l with
  | nil => intro m p; simp
  | cons e rest ih =>
    intro m p
    rw [List.foldl_cons]
    rw [ih (aggregateStep m e) p]
    by_cases hcode : e.task ≠ "" ∧ e.phase ≠ ""
    · have hstep : aggregateStep m e = outerAdd m e.project_id (e.task, e.phase) e.hours := by
        simp [aggregateStep, hcode]
      rw [hstep]
      rw [lookupD_outerAdd]
      by_cases hp : e.project_id = p
      · have hfilter : codedFor p e = true := by
          simp [codedFor, pidFor, codedEntry, hp, hcode.1, hcode.2]
        rw [if_pos hp, sum_addTo]
        simp [List.filter_cons, hfilter]
        ring
      · have hfilter : codedFor p e = false := by
          simp [codedFor, pidFor, hp]
        rw [if_neg hp]
        simp [List.filter_cons, hfilter]
    · have hstep : aggregateStep m e = m := by
        simp [aggregateStep, hcode]
      have hfilter : codedFor p e = false := by
        rcases Decidable.not_and_iff_or_not.1 hcode with h | h
        · simp [codedFor, codedEntry, show e.task = "" by tauto]
        · simp [codedFor, codedEntry, show e.phase = "" by tauto]
      rw [hstep]
      simp [List.filter_cons, hfilter]

theorem matrixSliceSum_eq (entries : List Entry) (p : String) :
    matrixSliceSum entries p = ((entries.filter (codedFor p)).map Entry.hours).sum := by
  unfold matrixSliceSum aggregate_hours
  simpa [lookupD] using matrix_sum_foldl entries [] p

theorem lookupD_groupAdd (m : List (String × List Entry)) (q p : String) (e : Entry) :
    lookupD (groupAdd m q e) p [] =
      if q = p then lookupD m p [] ++ [e] else lookupD m p [] := by
  induction m with
  | nil =>
    by_cases h : q = p <;> simp [groupAdd, lookupD, h]
  | cons rd rest ih =>
    obtain ⟨r, d⟩ := rd
    by_cases hrq : r = q
    · subst hrq
      by_cases hrp : r = p <;> simp [groupAdd, lookupD, hrp]
    · by_cases hrp : r = p
      · subst hrp
        have : ¬(q = r) := fun h => hrq h.symm
        simp [groupAdd, lookupD, hrq, this]
      · simp [groupAdd, lookupD, hrq, hrp, ih]

theorem group_lookup_foldl (l : List Entry) :
    ∀ (m : List (String × List Entry)) (p : String),
      lookupD (l.foldl (fun m e => groupAdd m e.project_id e) m) p [] =
        lookupD m p [] ++ l.filter (pidFor p) := by
  induction l with
  | nil => intro m p; simp
  | cons e rest ih =>
    intro m p
    rw [List.foldl_cons, ih]
    rw [lookupD_groupAdd]
    by_cases hp : e.project_id = p
    · have : pidFor p e = true := by simp [pidFor, hp]
      simp [List.filter_cons, this, hp]
    · have : pidFor p e = false := by simp [pidFor, hp]
      simp [List.filter_cons, this, hp]

theorem lookupD_map_snd (f : List Entry → List Entry) (hf : f [] = []) (p : String) :
    ∀ m : List (String × List Entry),
      lookupD (m.map fun pr => (pr.1, f pr.2)) p [] = f (lookupD m p []) := by
  intro m
  induction m with
  | nil => simp [lookupD, hf]
  | cons rd rest ih =>
    obtain ⟨r, d⟩ := rd
    by_cases hrp : r = p <;> simp [lookupD, hrp, ih]

theorem detailSheetHours_eq (entries : List Entry) (p : String) :
    detailSheetHours entries p = ((entries.filter (pidFor p)).map Entry.hours).sum := by
  unfold detailSheetHours group_by_project timesheet_hour_cells
  rw [lookupD_map_snd sortEntriesByDate rfl p (groupRaw entries)]
  have hperm : List.Perm (sortEntriesByDate (lookupD (groupRaw entries) p []))
      (lookupD (groupRaw entries) p []) := pySorted_perm _ _
  rw [(hperm.map Entry.hours).sum_eq]
  unfold groupRaw
  rw [group_lookup_foldl entries [] p]
  simp [lookupD]

/-- C1 counterexample: an entry with a non-empty phase but empty task code
survives filtering, is written to the detail sheet, yet is skipped by
`aggregate_hours`, so the detail-sheet hour sum differs from the
`HourMatrix` slice sum. -/
theorem detail_vs_matrix_counterexample :
    detailSheetHours [⟨"A: 1", none, "Ann", 2, "", "SD", "w"⟩] "A: 1" ≠
      matrixSliceSum [⟨"A: 1", none, "Ann", 2, "", "SD", "w"⟩] "A: 1" := by
  rw [detailSheetHours_eq, matrixSliceSum_eq]
  simp [pidFor, codedFor, codedEntry, List.filter_cons]

/-- C1 (amended): for every entry list and project, the detail-sheet hour
sum equals the `HourMatrix` slice sum plus the hours of that project's
entries lacking a task or phase code; the two agree exactly when every
entry of the project carries both codes. -/
theorem detail_matrix_decomposition (entries : List Entry) (p : String) :
    detailSheetHours entries p =
      matrixSliceSum entries p + ((entries.filter (uncodedFor p)).map Entry.hours).sum := by
  rw [detailSheetHours_eq, matrixSliceSum_eq]
  have hsplit : List.Perm ((entries.filter (pidFor p)).filter codedEntry ++
      (entries.filter (pidFor p)).filter fun e => !codedEntry e) (entries.filter (pidFor p)) :=
    List.filter_append_perm _ _
  have h1 : (entries.filter (pidFor p)).filter codedEntry = entries.filter (codedFor p) := by
    rw [List.filter_filter]
    exact List.filter_congr fun e _ => by simp [codedFor, Bool.and_comm]
  have h2 : ((entries.filter (pidFor p)).filter fun e => !codedEntry e) =
      entries.filter (uncodedFor p) := by
    rw [List.filter_filter]
    exact List.filter_congr fun e _ => by simp [uncodedFor, Bool.and_comm]
  rw [← (hsplit.map Entry.hours).sum_eq, List.map_append, List.sum_append, h1, h2]

/-! ## Section pruning (C2) -/

theorem foldl_append_eq_flatMap (f : σ → List τ) (l : List σ) :
    ∀ acc : List τ, l.foldl (fun a x => a ++ f x) acc = acc ++ l.flatMap f := by
  induction l with
  | nil => intro acc; simp
  | cons x xs ih =>
    intro acc
    rw [List.foldl_cons, ih (acc ++ f x)]
    simp

theorem mem_phaseDeleteRows (hd : HoursDict) (pc : String) (r : Nat) :
    r ∈ phaseDeleteRows hd pc ↔
      (phaseTotal hd pc = 0 ∧
        (r = (TEMPLATE_STRUCTURE_phases pc).header ∨ r ∈ (TEMPLATE_STRUCTURE_phases pc).tasks ∨
          r = (TEMPLATE_STRUCTURE_phases pc).subtotal)) ∨
      (phaseTotal hd pc ≠ 0 ∧ pc ≠ "M" ∧
        ∃ tr ∈ TASK_ORDER_STANDARD.zip (TEMPLATE_STRUCTURE_phases pc).tasks,
          hdGet hd (tr.1, pc) = 0 ∧ r = tr.2) := by
  unfold phaseDeleteRows
  split_ifs with h1 h2
  · simp only [List.mem_cons, List.mem_append, List.mem_singleton, List.not_mem_nil, or_false]
    constructor
    · intro h
      exact Or.inl ⟨h1, by tauto⟩
    · rintro (⟨-, h⟩ | ⟨hne, -⟩)
      · tauto
      · exact absurd h1 hne
  · simp only [List.mem_filterMap]
    constructor
    · rintro ⟨tr, htr, hf⟩
      by_cases hz : hdGet hd (tr.1, pc) = 0
      · rw [if_pos hz] at hf
        exact Or.inr ⟨h1, h2, tr, htr, hz, (Option.some_inj.1 hf).symm⟩
      · rw [if_neg hz] at hf
        cases hf
    · rintro (⟨h0, -⟩ | ⟨-, -, tr, htr, hz, rfl⟩)
      · exact absurd h0 h1
      · exact ⟨tr, htr, by rw [if_pos hz]⟩
  · simp only [List.not_mem_nil, false_iff]
    rintro (⟨h0, -⟩ | ⟨-, hm, -⟩)
    · exact absurd h0 h1
    · exact absurd hm h2

/-- C2: `calculate_rows_to_delete` marks exactly the header, task and
subtotal rows of every phase whose total is zero, plus, for nonzero
non-meetings phases, exactly the task rows whose (task, phase) total is
zero; and the result is sorted in descending numeric order. -/
theorem calculate_rows_to_delete_spec (hd : HoursDict) :
    (∀ r : Nat, r ∈ calculate_rows_to_delete hd ↔
      (∃ pc ∈ PHASE_ORDER, phaseTotal hd pc = 0 ∧
        (r = (TEMPLATE_STRUCTURE_phases pc).header ∨ r ∈ (TEMPLATE_STRUCTURE_phases pc).tasks ∨
          r = (TEMPLATE_STRUCTURE_phases pc).subtotal)) ∨
      (∃ pc ∈ PHASE_ORDER, phaseTotal hd pc ≠ 0 ∧ pc ≠ "M" ∧
        ∃ tr ∈ TASK_ORDER_STANDARD.zip (TEMPLATE_STRUCTURE_phases pc).tasks,
          hdGet hd (tr.1, pc) = 0 ∧ r = tr.2)) ∧
    (calculate_rows_to_delete hd).Sorted (· ≥ ·) := by
  constructor
  · intro r
    unfold calculate_rows_to_delete sortDesc
    rw [mem_pySorted, foldl_append_eq_flatMap (phaseDeleteRows hd) PHASE_ORDER []]
    simp only [List.nil_append, List.mem_flatMap]
    constructor
    · rintro ⟨pc, hpc, hr⟩
      rcases (mem_phaseDeleteRows hd pc r).1 hr with ⟨h0, hwhere⟩ | ⟨h0, hm, htr⟩
      · exact Or.inl ⟨pc, hpc, h0, hwhere⟩
      · exact Or.inr ⟨pc, hpc, h0, hm, htr⟩
    · rintro (⟨pc, hpc, h0, hwhere⟩ | ⟨pc, hpc, h0, hm, htr⟩)
      · exact ⟨pc, hpc, (mem_phaseDeleteRows hd pc r).2 (Or.inl ⟨h0, hwhere⟩)⟩
      · exact ⟨pc, hpc, (mem_phaseDeleteRows hd pc r).2 (Or.inr ⟨h0, hm, htr⟩)⟩
  · have hpw := pySorted_pairwise (fun a b : Nat => decide (b ≤ a))
      (fun a b c hab hbc => by
        simp only [decide_eq_true_eq] at *
        omega)
      (fun a b => by
        rcases Nat.le_total a b with h | h
        · exact Or.inr (by simpa using h)
        · exact Or.inl (by simpa using h))
      (PHASE_ORDER.foldl (fun acc pc => acc ++ phaseDeleteRows hd pc) [])
    exact hpw.imp fun h => by simpa using h

/-- Witness for C2 at a concrete hours dict with a single (PM, SD) entry. -/
theorem calculate_rows_to_delete_spec_witness :
    17 ∈ calculate_rows_to_delete [(("PM", "SD"), (10 : Rat))] ∧
    10 ∈ calculate_rows_to_delete [(("PM", "SD"), (10 : Rat))] ∧
    (calculate_rows_to_delete [(("PM", "SD"), (10 : Rat))]).Sorted (· ≥ ·) := by
  obtain ⟨hiff, hsort⟩ := calculate_rows_to_delete_spec [(("PM", "SD"), (10 : Rat))]
  refine ⟨(hiff 17).mpr ?_, (hiff 10).mpr ?_, hsort⟩
  · exact Or.inr ⟨"SD", by decide, by decide, by decide,
      ⟨("DP", 17), by decide, by decide, rfl⟩⟩
  · exact Or.inl ⟨"PD", by decide, by decide, Or.inl (by decide)⟩

/-! ## Meetings-task hours in standard phases (C9) -/

theorem mem_calculate_rows_to_delete (hd : HoursDict) (r : Nat) :
    r ∈ calculate_rows_to_delete hd ↔ ∃ pc ∈ PHASE_ORDER, r ∈ phaseDeleteRows hd pc := by
  unfold calculate_rows_to_delete sortDesc
  rw [mem_pySorted, foldl_append_eq_flatMap (phaseDeleteRows hd) PHASE_ORDER []]
  simp [List.mem_flatMap]

theorem calculate_phase_hours_foldl (l : HoursDict) :
    ∀ (acc : List (String × Rat)) (pc : String),
      lookupD (l.foldl (fun a kv => addTo a kv.1.2 kv.2) acc) pc 0 =
        lookupD acc pc 0 + ((l.filter fun kv => decide (kv.1.2 = pc)).map Prod.snd).sum := by
  induction l with
  | nil => intro acc pc; simp
  | cons kv rest ih =>
    intro acc pc
    rw [List.foldl_cons, ih (addTo acc kv.1.2 kv.2) pc, lookupD_addTo]
    by_cases hpc : kv.1.2 = pc
    · simp [List.filter_cons, hpc]
      ring
    · simp [List.filter_cons, hpc]

theorem phaseTotal_eq (hd : HoursDict) (pc : String) :
    phaseTotal hd pc = ((hd.filter fun kv => decide (kv.1.2 = pc)).map Prod.snd).sum := by
  unfold phaseTotal calculate_phase_hours
  simpa [lookupD] using calculate_phase_hours_foldl hd [] pc

theorem phaseTotal_cons (kv : (String × String) × Rat) (hd : HoursDict) (pc : String) :
    phaseTotal (kv :: hd) pc = (if kv.1.2 = pc then kv.2 else 0) + phaseTotal hd pc := by
  rw [phaseTotal_eq, phaseTotal_eq]
  by_cases hpc : kv.1.2 = pc <;> simp [List.filter_cons, hpc]

theorem phaseTotal_nonneg (hd : HoursDict) (pc : String)
    (hnn : ∀ kv ∈ hd, 0 ≤ kv.2) : 0 ≤ phaseTotal hd pc := by
  rw [phaseTotal_eq]
  apply List.sum_nonneg
  intro x hx
  obtain ⟨kv, hkv, rfl⟩ := List.mem_map.1 hx
  exact hnn kv (List.mem_filter.1 hkv).1

theorem sd_section_kept (hd : HoursDict) (hpos : phaseTotal hd "SD" ≠ 0) :
    16 ∉ calculate_rows_to_delete hd ∧ 21 ∉ calculate_rows_to_delete hd := by
  constructor <;>
  · intro h
    rw [mem_calculate_rows_to_delete] at h
    obtain ⟨pc, hpc, hr⟩ := h
    simp only [PHASE_ORDER, List.mem_cons, List.not_mem_nil, or_false] at hpc
    rcases hpc with rfl | rfl | rfl | rfl | rfl | rfl <;>
      rcases (mem_phaseDeleteRows _ _ _).1 hr with ⟨h0, hw⟩ | ⟨h0, hm, tr, htr, hz, hrr⟩ <;>
      first
        | exact absurd h0 hpos
        | (revert hw; decide)
        | (simp only [TASK_ORDER_STANDARD, TEMPLATE_STRUCTURE_phases] at htr
           simp at htr
           rcases htr with rfl | rfl | rfl | rfl <;> simp at hrr)

theorem hdGet_cons_ne (hd : HoursDict) (k k' : String × String) (v : Rat) (hne : k ≠ k') :
    hdGet ((k, v) :: hd) k' = hdGet hd k' := by
  simp [hdGet, lookupD, hne]

theorem meetingsHours_cons_nonM (hd : HoursDict) (k : String × String) (v : Rat)
    (hk : k.2 ≠ "M") : meetingsHours ((k, v) :: hd) = meetingsHours hd := by
  simp [meetingsHours, List.filter_cons, hk]

theorem phaseUnitWrites_cons_meetings_sd (hd : HoursDict) (h : Rat) :
    phaseUnitWrites ((("M", "SD"), h) :: hd) = phaseUnitWrites hd := by
  funext pc
  unfold phaseUnitWrites
  by_cases hm : pc = "M"
  · rw [if_pos hm, if_pos hm, meetingsHours_cons_nonM hd ("M", "SD") h (by decide)]
  · rw [if_neg hm, if_neg hm]
    apply List.map_congr_left
    intro tr htr
    have htask : tr.1 ∈ TASK_ORDER_STANDARD := (List.of_mem_zip htr).1
    have hne : ("M", "SD") ≠ (tr.1, pc) := by
      intro hcontra
      have : tr.1 = "M" := by
        have := congrArg Prod.fst hcontra
        exact this.symm
      rw [this] at htask
      simp [TASK_ORDER_STANDARD] at htask
    rw [hdGet_cons_ne hd _ _ h hne]

theorem populate_unit_writes_cons_meetings_sd (hd : HoursDict) (h : Rat) :
    populate_unit_writes ((("M", "SD"), h) :: hd) = populate_unit_writes hd := by
  unfold populate_unit_writes
  rw [foldl_append_eq_flatMap (phaseUnitWrites ((("M", "SD"), h) :: hd)) PHASE_ORDER [],
    foldl_append_eq_flatMap (phaseUnitWrites hd) PHASE_ORDER [],
    phaseUnitWrites_cons_meetings_sd hd h]

/-- C9: hours recorded under task "M" in the non-meetings phase SD are
counted in the phase total by `calculate_phase_hours` — so the SD header
(row 16) and subtotal (row 21) are kept — yet `populate_invoice_sheet`
writes Units cells only for the four standard task codes, so such hours
never reach any Units cell and the written units can undercount the
project's HourMatrix. -/
theorem meetings_task_hours_never_written (hd : HoursDict) (h : Rat)
    (hpos : 0 < h) (hnn : ∀ kv ∈ hd, 0 ≤ kv.2) :
    phaseTotal ((("M", "SD"), h) :: hd) "SD" = h + phaseTotal hd "SD" ∧
    16 ∉ calculate_rows_to_delete ((("M", "SD"), h) :: hd) ∧
    21 ∉ calculate_rows_to_delete ((("M", "SD"), h) :: hd) ∧
    populate_unit_writes ((("M", "SD"), h) :: hd) = populate_unit_writes hd ∧
    writtenUnitsSum [(("M", "SD"), h)] = 0 ∧
    dictTotal [(("M", "SD"), h)] = h := by
  have htot : phaseTotal ((("M", "SD"), h) :: hd) "SD" = h + phaseTotal hd "SD" := by
    rw [phaseTotal_cons]
    norm_num
  have hne : phaseTotal ((("M", "SD"), h) :: hd) "SD" ≠ 0 := by
    rw [htot]
    have := phaseTotal_nonneg hd "SD" hnn
    positivity
  obtain ⟨h16, h21⟩ := sd_section_kept _ hne
  refine ⟨htot, h16, h21, populate_unit_writes_cons_meetings_sd hd h, ?_, ?_⟩
  · rw [writtenUnitsSum, populate_unit_writes_cons_meetings_sd [] h]
    simp [populate_unit_writes, PHASE_ORDER, phaseUnitWrites, TEMPLATE_STRUCTURE_phases,
      TASK_ORDER_STANDARD, meetingsHours, hdGet, lookupD]
  · simp [dictTotal]

/-- Witness for C9 at the concrete dict with 5 hours under (task M, phase SD). -/
theorem meetings_task_hours_never_written_witness :
    phaseTotal [(("M", "SD"), (5 : Rat))] "SD" = 5 + phaseTotal ([] : HoursDict) "SD" ∧
    16 ∉ calculate_rows_to_delete [(("M", "SD"), (5 : Rat))] ∧
    21 ∉ calculate_rows_to_delete [(("M", "SD"), (5 : Rat))] ∧
    populate_unit_writes [(("M", "SD"), (5 : Rat))] = populate_unit_writes [] ∧
    writtenUnitsSum [(("M", "SD"), (5 : Rat))] = 0 ∧
    dictTotal [(("M", "SD"), (5 : Rat))] = 5 :=
  meetings_task_hours_never_written [] 5 (by decide) (by simp)

/-! ## Reading timesheet data (C5) -/

theorem exceptIsOk_iff {x : Except ε α} : exceptIsOk x = true ↔ ∃ a, x = .ok a := by
  cases x <;> simp [exceptIsOk]

theorem readRows_ok (rows : List (List (Option Val)))
    (h : ∀ row ∈ rows, 9 ≤ row.length → exceptIsOk (rowHours (row.getD 5 none)) = true) :
    readRows rows = .ok ((rows.filter fun r => !decide (r.length < 9)).map entryOfRow) := by
  induction rows with
  | nil => rfl
  | cons row rest ih =>
    have hrest := fun r hr => h r (List.mem_cons_of_mem row hr)
    by_cases hlen : row.length < 9
    · have : (!decide (row.length < 9)) = false := by simp [hlen]
      rw [List.filter_cons, this]
      simp only [readRows, if_pos hlen]
      exact ih hrest
    · have hok := h row (List.mem_cons_self row rest) (by omega)
      obtain ⟨q, hq⟩ := exceptIsOk_iff.1 hok
      have hentry : rowToEntry row = .ok (entryOfRow row) := by
        unfold rowToEntry
        rw [hq]
      have : (!decide (row.length < 9)) = true := by simp [hlen]
      rw [List.filter_cons, this]
      simp only [readRows, if_neg hlen, hentry, ih hrest, List.map_cons]
      simp

/-- C5 (amended): the Entry Reader skips rows shorter than 9 columns and
produces one entry per qualifying row; a falsy (empty/None/zero) hours
cell yields hours 0 while a truthy non-numeric one aborts the read; the
hours value is a function of the Total-Adjusted-Hours column (index 5)
alone; an unparseable date string yields no date rather than failing the
row; and fewer than 2 rows fail with the input-missing error. -/
theorem read_timesheet_data_contract (rows : List (List (Option Val))) :
    (rows.length < 2 → read_timesheet_data rows = .error .inputMissing) ∧
    (2 ≤ rows.length →
      (∀ row ∈ rows.drop 1, 9 ≤ row.length →
        exceptIsOk (rowHours (row.getD 5 none)) = true) →
      read_timesheet_data rows =
        .ok (((rows.drop 1).filter fun r => !decide (r.length < 9)).map entryOfRow)) ∧
    (∀ row : List (Option Val), (entryOfRow row).hours = pureHours (row.getD 5 none)) ∧
    (∀ c : Option Val, truthyCell c = false → rowHours c = .ok 0) ∧
    (∀ row : List (Option Val), (entryOfRow row).date = entryDate (row.getD 1 none)) ∧
    (∀ t : String, parseDateMDY t = none → entryDate (some (.s t)) = none) := by
  refine ⟨?_, ?_, fun _ => rfl, ?_, fun _ => rfl, ?_⟩
  · intro h
    unfold read_timesheet_data
    rw [if_pos h]
  · intro hlen hok
    unfold read_timesheet_data
    rw [if_neg (by omega)]
    exact readRows_ok _ hok
  · intro c hc
    cases c with
    | none => rfl
    | some v =>
      have hv : truthyVal v = false := hc
      simp [rowHours, hv]
  · intro t h
    simp [entryDate, h]

/-- C5 counterexample: a truthy, non-numeric Total-Adjusted-Hours cell
("abc") does not yield hours 0.0 — it aborts the whole read with an
uncaught conversion error. -/
theorem read_nonnumeric_hours_counterexample :
    read_timesheet_data
      [[none, none, none, none, none, none, none, none, none],
       [some (.s " A: 1 "), none, none, some (.f 2), none, some (.s "abc"), none, none, none]] =
      .error .hoursNotNumeric := rfl

/-- Witness for C5: a well-formed table (header, one full row, one short
row) reads to exactly one entry, hours taken from column index 5,
unparseable date dropped to `none`, codes stripped and upper-cased. -/
theorem read_timesheet_data_contract_witness :
    read_timesheet_data
      [[none, none, none, none, none, none, none, none, none],
       [some (.s " A: 1 "), some (.s "13/40/2025"), some (.s "Bob"), some (.f 3), none,
        some (.f 8), some (.s "pm"), some (.s "sd"), some (.s "w1")],
       [none, none, none]] =
      .ok [⟨"A: 1", none, "Bob", 8, "PM", "SD", "w1"⟩] := by
  have h := (read_timesheet_data_contract
    [[none, none, none, none, none, none, none, none, none],
     [some (.s " A: 1 "), some (.s "13/40/2025"), some (.s "Bob"), some (.f 3), none,
      some (.f 8), some (.s "pm"), some (.s "sd"), some (.s "w1")],
     [none, none, none]]).2.1 (by decide) (by decide)
  rw [h]
  rfl

/-! ## Write-list semantics -/

theorem foldl_overwrite (step : Option String → (Nat × Nat × String) → Option String)
    (hstep : ∀ a t, step a t = match step none t with | some f => some f | none => a)
    (l : List (Nat × Nat × String)) :
    ∀ a : Option String, l.foldl step a =
      match l.foldl step none with | some f => some f | none => a := by
  induction l with
  | nil => intro a; simp
  | cons t rest ih =>
    intro a
    rw [List.foldl_cons, List.foldl_cons, ih (step a t), ih (step none t)]
    rw [hstep a t]
    rcases h1 : rest.foldl step none with - | f1
    · rcases h2 : step none t with - | f2 <;> simp
    · simp

theorem lastWriteTo_cons (t : Nat × Nat × String) (l : List (Nat × Nat × String)) (r c : Nat) :
    lastWriteTo (t :: l) r c =
      match lastWriteTo l r c with
      | some f => some f
      | none => if t.1 = r ∧ t.2.1 = c then some t.2.2 else none := by
  unfold lastWriteTo
  rw [List.foldl_cons]
  exact foldl_overwrite _ (fun a t' => by by_cases h : t'.1 = r ∧ t'.2.1 = c <;> simp [h]) l _

theorem lastWriteTo_append (l1 l2 : List (Nat × Nat × String)) (r c : Nat) :
    lastWriteTo (l1 ++ l2) r c =
      match lastWriteTo l2 r c with
      | some f => some f
      | none => lastWriteTo l1 r c := by
  unfold lastWriteTo
  rw [List.foldl_append]
  exact foldl_overwrite _ (fun a t' => by by_cases h : t'.1 = r ∧ t'.2.1 = c <;> simp [h]) l2 _

theorem lastWriteTo_eq_none (l : List (Nat × Nat × String)) (r c : Nat)
    (h : ∀ t ∈ l, ¬(t.1 = r ∧ t.2.1 = c)) : lastWriteTo l r c = none := by
  induction l with
  | nil => rfl
  | cons t rest ih =>
    rw [lastWriteTo_cons]
    rw [ih fun t' ht' => h t' (List.mem_cons_of_mem t ht')]
    simp [h t (List.mem_cons_self t rest)]

theorem applyWrites_cells (l : List (Nat × Nat × String)) :
    ∀ (ws : Worksheet) (r c : Nat), (applyWrites ws l).cells r c =
      match lastWriteTo l r c with
      | some f => some (.s f)
      | none => ws.cells r c := by
  induction l with
  | nil => intro ws r c; rfl
  | cons t rest ih =>
    intro ws r c
    unfold applyWrites at ih ⊢
    rw [List.foldl_cons, ih, lastWriteTo_cons]
    rcases h1 : lastWriteTo rest r c with - | f1
    · by_cases h2 : t.1 = r ∧ t.2.1 = c
      · simp only [h2, and_self, if_pos]
        simp [setCell, h2.1, h2.2]
      · simp only [if_neg h2]
        show (setCell ws t.1 t.2.1 (.s t.2.2)).cells r c = ws.cells r c
        unfold setCell
        exact if_neg fun hc => h2 ⟨hc.1.symm, hc.2.symm⟩
    · simp

theorem applyWrites_maxRow (l : List (Nat × Nat × String)) :
    ∀ ws : Worksheet, (applyWrites ws l).maxRow = ws.maxRow := by
  induction l with
  | nil => intro ws; rfl
  | cons t rest ih =>
    intro ws
    unfold applyWrites at ih ⊢
    rw [List.foldl_cons, ih]
    rfl

theorem worksheet_eq (a b : Worksheet) (h1 : a.maxRow = b.maxRow)
    (h2 : ∀ r c, a.cells r c = b.cells r c) : a = b := by
  cases a with
  | mk m1 c1 =>
    cases b with
    | mk m2 c2 =>
      simp only at h1 h2
      subst h1
      have : c1 = c2 := funext fun r => funext fun c => h2 r c
      rw [this]

theorem mem_costWrites {d : Discovery} {t : Nat × Nat × String} (h : t ∈ costWrites d) :
    t.2.1 = 5 := by
  obtain ⟨r, -, rfl⟩ := List.mem_map.1 h
  rfl

theorem mem_subtotalWrites {d : Discovery} {t : Nat × Nat × String}
    (h : t ∈ subtotalWrites d) : t.2.1 = 6 := by
  obtain ⟨tr, -, hf⟩ := List.mem_filterMap.1 h
  rcases htr : tr.2.2 with - | s
  · rw [htr] at hf; cases hf
  · rw [htr] at hf
    cases Option.some_inj.1 hf
    rfl

theorem mem_overallWrites {d : Discovery} {t : Nat × Nat × String}
    (h : t ∈ overallWrites d) : t.2.1 = 3 ∨ t.2.1 = 6 := by
  unfold overallWrites at h
  rcases ho : d.overall with - | o
  · rw [ho] at h; cases h
  · rw [ho] at h
    rcases List.mem_append.1 h with h1 | h1 <;> [skip; skip]
    · split at h1
      · rcases List.mem_singleton.1 h1 with rfl
        exact Or.inl rfl
      · cases h1
    · split at h1
      · rcases List.mem_singleton.1 h1 with rfl
        exact Or.inr rfl
      · cases h1

theorem mem_reimbWrites {d : Discovery} {t : Nat × Nat × String}
    (h : t ∈ reimbWrites d) : t.2.1 = 6 := by
  unfold reimbWrites at h
  split at h
  · split at h
    · rcases List.mem_singleton.1 h with rfl
      rfl
    · cases h
  · cases h

theorem mem_totalDueWrites {d : Discovery} {t : Nat × Nat × String}
    (h : t ∈ totalDueWrites d) : t.2.1 = 6 := by
  unfold totalDueWrites at h
  split at h
  · rcases List.mem_singleton.1 h with rfl
    rfl
  · cases h

theorem mem_rebuildWrites_col {d : Discovery} {t : Nat × Nat × String}
    (h : t ∈ rebuildWrites d) : t.2.1 = 3 ∨ t.2.1 = 5 ∨ t.2.1 = 6 := by
  unfold rebuildWrites at h
  simp only [List.append_assoc, List.mem_append] at h
  rcases h with h | h | h | h | h
  · exact Or.inr (Or.inl (mem_costWrites h))
  · exact Or.inr (Or.inr (mem_subtotalWrites h))
  · rcases mem_overallWrites h with h | h
    · exact Or.inl h
    · exact Or.inr (Or.inr h)
  · exact Or.inr (Or.inr (mem_reimbWrites h))
  · exact Or.inr (Or.inr (mem_totalDueWrites h))

/-! ## Idempotence of formula rebuilding (C4) -/

theorem rebuild_cells_col_ne (ws : Worksheet) (r c : Nat)
    (hc : c ≠ 3 ∧ c ≠ 5 ∧ c ≠ 6) :
    (rebuild_formulas ws).cells r c = ws.cells r c := by
  unfold rebuild_formulas
  rw [applyWrites_cells]
  rw [lastWriteTo_eq_none]
  intro t ht hcontra
  rcases mem_rebuildWrites_col ht with h | h | h <;> rw [hcontra.2] at h <;> tauto

theorem colB_rebuild (ws : Worksheet) : colB (rebuild_formulas ws) = colB ws :=
  funext fun r => rebuild_cells_col_ne ws r 2 (by omega)

theorem colD_rebuild (ws : Worksheet) : colD (rebuild_formulas ws) = colD ws :=
  funext fun r => rebuild_cells_col_ne ws r 4 (by omega)

theorem maxRow_rebuild (ws : Worksheet) : (rebuild_formulas ws).maxRow = ws.maxRow :=
  applyWrites_maxRow _ ws

theorem discoverWs_rebuild (ws : Worksheet) :
    discoverWs (rebuild_formulas ws) = discoverWs ws := by
  unfold discoverWs
  rw [colB_rebuild, colD_rebuild, maxRow_rebuild]

theorem applyWrites_self_idem (ws : Worksheet) (l : List (Nat × Nat × String)) :
    applyWrites (applyWrites ws l) l = applyWrites ws l := by
  apply worksheet_eq
  · rw [applyWrites_maxRow]
  · intro r c
    rw [applyWrites_cells, applyWrites_cells]
    rcases h : lastWriteTo l r c with - | f <;> simp

/-- C4: formula rebuilding is idempotent: a second run re-discovers the
same structure (the pass reads only the description column B, the label
column D and the row bound, none of which rebuilding modifies) and leaves
every cell exactly as the first run wrote it. -/
theorem rebuild_formulas_idempotent (ws : Worksheet) :
    discoverWs (rebuild_formulas ws) = discoverWs ws ∧
    rebuild_formulas (rebuild_formulas ws) = rebuild_formulas ws := by
  refine ⟨discoverWs_rebuild ws, ?_⟩
  show applyWrites (rebuild_formulas ws) (rebuildWrites (discoverWs (rebuild_formulas ws))) =
    rebuild_formulas ws
  rw [discoverWs_rebuild ws]
  show applyWrites (applyWrites ws (rebuildWrites (discoverWs ws)))
    (rebuildWrites (discoverWs ws)) = applyWrites ws (rebuildWrites (discoverWs ws))
  exact applyWrites_self_idem ws _

/-! ## Discovery structure lemmas (towards C3) -/

theorem spanStep_fst (B : Nat → Option Val) (rows : List Nat) :
    ∀ acc : List Nat × Option Nat,
      (rows.foldl (spanStep B) acc).1 = acc.1 ++ rows.filter (isTaskRow B) := by
  induction rows with
  | nil => intro acc; simp
  | cons r rest ih =>
    intro acc
    by_cases ht : isTaskRow B r
    · rw [List.foldl_cons, List.filter_cons]
      have hstep : spanStep B acc r = (acc.1 ++ [r], acc.2) := by
        unfold spanStep
        rw [if_pos ht]
      rw [hstep, ih (acc.1 ++ [r], acc.2)]
      simp [ht]
    · have hfst : (spanStep B acc r).1 = acc.1 := by
        unfold spanStep
        rw [if_neg ht]
        split
        · split <;> rfl
        · rfl
      rw [List.foldl_cons, ih (spanStep B acc r), hfst, List.filter_cons]
      simp [ht]

theorem phaseSpan_fst (B : Nat → Option Val) (p nxt : Nat) :
    (phaseSpan B p nxt).1 = (List.range' (p + 1) (nxt - (p + 1))).filter (isTaskRow B) := by
  unfold phaseSpan
  rw [spanStep_fst]
  simp

theorem spanStep_snd_mem (B : Nat → Option Val) (rows : List Nat) :
    ∀ (acc : List Nat × Option Nat) (s : Nat), (rows.foldl (spanStep B) acc).2 = some s →
      acc.2 = some s ∨ (s ∈ rows ∧ truthyCell (B s) = false) := by
  induction rows with
  | nil => intro acc s h; exact Or.inl h
  | cons r rest ih =>
    intro acc s h
    rw [List.foldl_cons] at h
    rcases ih (spanStep B acc r) s h with h1 | h1
    · unfold spanStep at h1
      by_cases ht : isTaskRow B r
      · rw [if_pos ht] at h1
        exact Or.inl h1
      · rw [if_neg ht] at h1
        by_cases htr : !truthyCell (B r)
        · rw [if_pos htr] at h1
          by_cases hcond : acc.1 ≠ [] ∧ acc.2 = none
          · rw [if_pos hcond] at h1
            have : r = s := Option.some_inj.1 h1
            subst this
            exact Or.inr ⟨List.mem_cons_self r rest, by simpa using htr⟩
          · rw [if_neg hcond] at h1
            exact Or.inl h1
        · rw [if_neg htr] at h1
          exact Or.inl h1
    · exact Or.inr ⟨List.mem_cons_of_mem r h1.1, h1.2⟩

theorem phaseSpan_snd (B : Nat → Option Val) (p nxt s : Nat)
    (h : (phaseSpan B p nxt).2 = some s) :
    s ∈ List.range' (p + 1) (nxt - (p + 1)) ∧ truthyCell (B s) = false := by
  rcases spanStep_snd_mem B _ ([], none) s h with h1 | h1
  · cases h1
  · exact h1

theorem phaseSpan_elems_bounds (B : Nat → Option Val) (p nxt : Nat) :
    ∀ x ∈ spanElems (p, phaseSpan B p nxt), p < x ∧ x < nxt := by
  intro x hx
  have hrange : x ∈ List.range' (p + 1) (nxt - (p + 1)) := by
    rcases List.mem_append.1 hx with h1 | h1
    · exact List.mem_of_mem_filter (phaseSpan_fst B p nxt ▸ h1)
    · rcases hsnd : (phaseSpan B p nxt).2 with - | s
      · rw [hsnd] at h1
        cases h1
      · rw [hsnd] at h1
        rcases List.mem_singleton.1 h1 with rfl
        exact (phaseSpan_snd B p nxt x hsnd).1
  obtain ⟨i, hi, rfl⟩ := List.mem_range'.1 hrange
  omega

theorem buildPhases_mem_fst (B : Nat → Option Val) (ov : Option Nat) (n : Nat) :
    ∀ (ps : List Nat) (tr : Nat × List Nat × Option Nat),
      tr ∈ buildPhases B ov n ps → tr.1 ∈ ps := by
  intro ps
  induction ps with
  | nil => intro tr h; cases h
  | cons p rest ih =>
    intro tr htr
    simp only [buildPhases] at htr
    rcases List.mem_cons.1 htr with rfl | htr'
    · exact List.mem_cons_self p rest
    · exact List.mem_cons_of_mem p (ih tr htr')

theorem buildPhases_elems_gt (B : Nat → Option Val) (ov : Option Nat) (n : Nat) :
    ∀ (ps : List Nat) (tr : Nat × List Nat × Option Nat), tr ∈ buildPhases B ov n ps →
      ∀ x ∈ spanElems tr, tr.1 < x := by
  intro ps
  induction ps with
  | nil => intro tr h; cases h
  | cons p rest ih =>
    intro tr htr x hx
    simp only [buildPhases] at htr
    rcases List.mem_cons.1 htr with rfl | htr'
    · exact (phaseSpan_elems_bounds B p _ x hx).1
    · exact ih tr htr' x hx

theorem buildPhases_tasks_pairwise (B : Nat → Option Val) (ov : Option Nat) (n : Nat) :
    ∀ (ps : List Nat) (tr : Nat × List Nat × Option Nat), tr ∈ buildPhases B ov n ps →
      tr.2.1.Pairwise (· < ·) := by
  intro ps
  induction ps with
  | nil => intro tr h; cases h
  | cons p rest ih =>
    intro tr htr
    simp only [buildPhases] at htr
    rcases List.mem_cons.1 htr with rfl | htr'
    · show ((phaseSpan B p _).1).Pairwise (· < ·)
      rw [phaseSpan_fst]
      exact (List.pairwise_lt_range' _ _).filter _
    · exact ih tr htr'

theorem buildPhases_sub_falsy (B : Nat → Option Val) (ov : Option Nat) (n : Nat) :
    ∀ (ps : List Nat) (tr : Nat × List Nat × Option Nat), tr ∈ buildPhases B ov n ps →
      ∀ s, tr.2.2 = some s → truthyCell (B s) = false := by
  intro ps
  induction ps with
  | nil => intro tr h; cases h
  | cons p rest ih =>
    intro tr htr s hs
    simp only [buildPhases] at htr
    rcases List.mem_cons.1 htr with rfl | htr'
    · exact (phaseSpan_snd B p _ s hs).2
    · exact ih tr htr' s hs

theorem buildPhases_cross (B : Nat → Option Val) (ov : Option Nat) (n : Nat) :
    ∀ ps : List Nat, ps.Pairwise (· < ·) →
      (buildPhases B ov n ps).Pairwise
        fun a b => ∀ x ∈ spanElems a, ∀ y ∈ spanElems b, x < y := by
  intro ps
  induction ps with
  | nil => intro _; simp only [buildPhases]; exact List.Pairwise.nil
  | cons p rest ih =>
    intro hpw
    rw [List.pairwise_cons] at hpw
    obtain ⟨hp, hrest⟩ := hpw
    simp only [buildPhases]
    refine List.pairwise_cons.2 ⟨?_, ih hrest⟩
    intro tr htr x hx y hy
    rcases hr : rest with - | ⟨q, rest'⟩
    · rw [hr] at htr
      simp only [buildPhases] at htr
      cases htr
    · rw [hr] at htr hx
      have hxq : x < q := (phaseSpan_elems_bounds B p q x hx).2
      have htr1 : tr.1 ∈ q :: rest' := buildPhases_mem_fst B ov n _ tr htr
      have hq : q ≤ tr.1 := by
        rcases List.mem_cons.1 htr1 with heq | h1
        · omega
        · rw [hr] at hrest
          rw [List.pairwise_cons] at hrest
          exact Nat.le_of_lt (hrest.1 tr.1 h1)
      have hy' : tr.1 < y := buildPhases_elems_gt B ov n _ tr htr y hy
      omega

theorem scanStepDue_overall (D : Nat → Option Val) (st : ScanState) (r : Nat) :
    (scanStepDue D st r).overall = st.overall := by
  unfold scanStepDue
  split
  · split <;> rfl
  · rfl

theorem scanStepDue_reimbSub (D : Nat → Option Val) (st : ScanState) (r : Nat) :
    (scanStepDue D st r).reimbSub = st.reimbSub := by
  unfold scanStepDue
  split
  · split <;> rfl
  · rfl

theorem scanStepLabel_cases (B : Nat → Option Val) (st : ScanState) (r : Nat) :
    ((scanStepLabel B st r).overall = st.overall ∧
      (scanStepLabel B st r).reimbSub = st.reimbSub) ∨
    ((scanStepLabel B st r).overall = some r ∧ labelAt B r = some "Subtotal" ∧
      (scanStepLabel B st r).reimbSub = st.reimbSub) ∨
    ((scanStepLabel B st r).reimbSub = some r ∧ labelAt B r = some "Subtotal" ∧
      (scanStepLabel B st r).overall = st.overall) := by
  rcases hl : labelAt B r with - | s
  · left
    constructor <;> simp [scanStepLabel, hl]
  · by_cases h1 : s = "Reimbursable"
    · left
      constructor <;> simp [scanStepLabel, hl, h1]
    · by_cases h2 : s = "Subtotal"
      · by_cases h3 : st.inReimb
        · refine Or.inr (Or.inr ⟨?_, ?_, ?_⟩) <;> simp [scanStepLabel, hl, h1, h2, h3]
        · refine Or.inr (Or.inl ⟨?_, ?_, ?_⟩) <;> simp [scanStepLabel, hl, h1, h2, h3]
      · left
        constructor <;> (simp only [scanStepLabel, hl]; rw [if_neg h1, if_neg h2]; split <;> rfl)

theorem scanStep_cases (B D : Nat → Option Val) (st : ScanState) (r : Nat) :
    ((scanStep B D st r).overall = st.overall ∧ (scanStep B D st r).reimbSub = st.reimbSub) ∨
    ((scanStep B D st r).overall = some r ∧ labelAt B r = some "Subtotal" ∧
      (scanStep B D st r).reimbSub = st.reimbSub) ∨
    ((scanStep B D st r).reimbSub = some r ∧ labelAt B r = some "Subtotal" ∧
      (scanStep B D st r).overall = st.overall) := by
  have ho : (scanStep B D st r).overall = (scanStepLabel B st r).overall :=
    scanStepDue_overall D _ r
  have hr2 : (scanStep B D st r).reimbSub = (scanStepLabel B st r).reimbSub :=
    scanStepDue_reimbSub D _ r
  rcases scanStepLabel_cases B st r with ⟨h1, h2⟩ | ⟨h1, h2, h3⟩ | ⟨h1, h2, h3⟩
  · exact Or.inl ⟨ho.trans h1, hr2.trans h2⟩
  · exact Or.inr (Or.inl ⟨ho.trans h1, h2, hr2.trans h3⟩)
  · exact Or.inr (Or.inr ⟨hr2.trans h1, h2, ho.trans h3⟩)

theorem scan_inv (B D : Nat → Option Val) :
    ∀ (l : List Nat) (seen : List Nat) (st : ScanState),
      ((∀ o, st.overall = some o → labelAt B o = some "Subtotal" ∧ o ∈ seen) ∧
       (∀ s, st.reimbSub = some s → labelAt B s = some "Subtotal" ∧ s ∈ seen) ∧
       (∀ o s, st.overall = some o → st.reimbSub = some s → o ≠ s)) →
      (∀ r ∈ l, r ∉ seen) → l.Nodup →
      ((∀ o, (l.foldl (scanStep B D) st).overall = some o →
          labelAt B o = some "Subtotal" ∧ o ∈ seen ++ l) ∧
       (∀ s, (l.foldl (scanStep B D) st).reimbSub = some s →
          labelAt B s = some "Subtotal" ∧ s ∈ seen ++ l) ∧
       (∀ o s, (l.foldl (scanStep B D) st).overall = some o →
          (l.foldl (scanStep B D) st).reimbSub = some s → o ≠ s)) := by
  intro l
  induction l with
  | nil =>
    intro seen st hinv _ _
    simpa using hinv
  | cons r rest ih =>
    intro seen st hinv hfresh hnd
    obtain ⟨hov, hrs, hne⟩ := hinv
    have hrseen : r ∉ seen := hfresh r (List.mem_cons_self r rest)
    have hinv' :
        (∀ o, (scanStep B D st r).overall = some o →
          labelAt B o = some "Subtotal" ∧ o ∈ seen ++ [r]) ∧
        (∀ s, (scanStep B D st r).reimbSub = some s →
          labelAt B s = some "Subtotal" ∧ s ∈ seen ++ [r]) ∧
        (∀ o s, (scanStep B D st r).overall = some o →
          (scanStep B D st r).reimbSub = some s → o ≠ s) := by
      rcases scanStep_cases B D st r with ⟨ho, hr2⟩ | ⟨ho, hlab, hr2⟩ | ⟨hr2, hlab, ho⟩
      · refine ⟨?_, ?_, ?_⟩
        · intro o h
          obtain ⟨hx, hy⟩ := hov o (ho ▸ h)
          exact ⟨hx, by simp [hy]⟩
        · intro s h
          obtain ⟨hx, hy⟩ := hrs s (hr2 ▸ h)
          exact ⟨hx, by simp [hy]⟩
        · intro o s h1 h2
          exact hne o s (ho ▸ h1) (hr2 ▸ h2)
      · refine ⟨?_, ?_, ?_⟩
        · intro o h
          have : o = r := by
            rw [ho] at h
            exact (Option.some_inj.1 h).symm
          subst this
          exact ⟨hlab, by simp⟩
        · intro s h
          obtain ⟨hx, hy⟩ := hrs s (hr2 ▸ h)
          exact ⟨hx, by simp [hy]⟩
        · intro o s h1 h2
          have : o = r := by
            rw [ho] at h1
            exact (Option.some_inj.1 h1).symm
          subst this
          obtain ⟨-, hy⟩ := hrs s (hr2 ▸ h2)
          intro hcontra
          exact hrseen (hcontra ▸ hy)
      · refine ⟨?_, ?_, ?_⟩
        · intro o h
          obtain ⟨hx, hy⟩ := hov o (ho ▸ h)
          exact ⟨hx, by simp [hy]⟩
        · intro s h
          have : s = r := by
            rw [hr2] at h
            exact (Option.some_inj.1 h).symm
          subst this
          exact ⟨hlab, by simp⟩
        · intro o s h1 h2
          have : s = r := by
            rw [hr2] at h2
            exact (Option.some_inj.1 h2).symm
          subst this
          obtain ⟨-, hy⟩ := hov o (ho ▸ h1)
          intro hcontra
          exact hrseen (hcontra ▸ hy)
    have hfresh' : ∀ r' ∈ rest, r' ∉ seen ++ [r] := by
      intro r' hr' hcontra
      rcases List.mem_append.1 hcontra with h | h
      · exact hfresh r' (List.mem_cons_of_mem r hr') h
      · rcases List.mem_singleton.1 h with rfl
        exact (List.nodup_cons.1 hnd).1 hr'
    have hnd' : rest.Nodup := (List.nodup_cons.1 hnd).2
    have := ih (seen ++ [r]) (scanStep B D st r) hinv' hfresh' hnd'
    rw [List.foldl_cons]
    refine ⟨?_, ?_, this.2.2⟩
    · intro o h
      obtain ⟨hx, hy⟩ := this.1 o h
      refine ⟨hx, ?_⟩
      simp only [List.append_assoc, List.singleton_append] at hy
      exact hy
    · intro s h
      obtain ⟨hx, hy⟩ := this.2.1 s h
      refine ⟨hx, ?_⟩
      simp only [List.append_assoc, List.singleton_append] at hy
      exact hy

theorem scanStructure_facts (B D : Nat → Option Val) (n : Nat) :
    (∀ o, (scanStructure B D n).overall = some o → labelAt B o = some "Subtotal") ∧
    (∀ s, (scanStructure B D n).reimbSub = some s → labelAt B s = some "Subtotal") ∧
    (∀ o s, (scanStructure B D n).overall = some o →
      (scanStructure B D n).reimbSub = some s → o ≠ s) := by
  have h := scan_inv B D (sheetRows n) [] initScan
    (by
      refine ⟨?_, ?_, ?_⟩
      · intro o h
        cases h
      · intro s h
        cases h
      · intro o s h1 h2
        cases h1)
    (by intro r _ h; cases h)
    (by apply List.nodup_range'; exact Nat.one_pos)
  exact ⟨fun o ho => (h.1 o ho).1, fun s hs => (h.2.1 s hs).1, h.2.2⟩

theorem lastWriteTo_append_right_none {l1 l2 : List (Nat × Nat × String)} {r c : Nat}
    (h2 : lastWriteTo l2 r c = none) :
    lastWriteTo (l1 ++ l2) r c = lastWriteTo l1 r c := by
  rw [lastWriteTo_append, h2]

theorem lastWriteTo_append_right_some {l1 l2 : List (Nat × Nat × String)} {r c : Nat}
    {f : String} (h2 : lastWriteTo l2 r c = some f) :
    lastWriteTo (l1 ++ l2) r c = some f := by
  rw [lastWriteTo_append, h2]

theorem lastWriteTo_none_of_col {l : List (Nat × Nat × String)} {r c : Nat}
    (h : ∀ t ∈ l, t.2.1 ≠ c) : lastWriteTo l r c = none :=
  lastWriteTo_eq_none l r c fun t ht hco => h t ht hco.2

theorem lastWriteTo_none_of_row {l : List (Nat × Nat × String)} {r c : Nat}
    (h : ∀ t ∈ l, t.1 ≠ r) : lastWriteTo l r c = none :=
  lastWriteTo_eq_none l r c fun t ht hco => h t ht hco.1

theorem lastWriteTo_singleton (t : Nat × Nat × String) (r c : Nat) :
    lastWriteTo [t] r c = if t.1 = r ∧ t.2.1 = c then some t.2.2 else none := by
  rw [show [t] = t :: ([] : List (Nat × Nat × String)) from rfl, lastWriteTo_cons]
  rfl

theorem lastWriteTo_map_row (g : Nat → String) (c : Nat) :
    ∀ rs : List Nat, rs.Pairwise (· < ·) → ∀ r ∈ rs,
      lastWriteTo (rs.map fun x => (x, c, g x)) r c = some (g r) := by
  intro rs
  induction rs with
  | nil => intro _ r hr; cases hr
  | cons x xs ih =>
    intro hpw r hr
    rw [List.pairwise_cons] at hpw
    obtain ⟨hx, hxs⟩ := hpw
    rw [List.map_cons, lastWriteTo_cons]
    rcases List.mem_cons.1 hr with rfl | hr'
    · have hnone : lastWriteTo (xs.map fun x => (x, c, g x)) r c = none := by
        apply lastWriteTo_none_of_row
        intro t ht
        obtain ⟨x', hx', rfl⟩ := List.mem_map.1 ht
        exact fun hco => absurd (hco ▸ hx x' hx') (lt_irrefl r)
      rw [hnone]
      simp
    · rw [ih hxs r hr']

theorem mem_costWrites_row {d : Discovery} {t : Nat × Nat × String} (h : t ∈ costWrites d) :
    t.1 ∈ allTaskRows d := by
  obtain ⟨r, hr, rfl⟩ := List.mem_map.1 h
  exact hr

theorem mem_subtotalWrites_row {d : Discovery} {t : Nat × Nat × String}
    (h : t ∈ subtotalWrites d) : ∃ tr ∈ d.phases, tr.2.2 = some t.1 := by
  obtain ⟨tr, htr, hf⟩ := List.mem_filterMap.1 h
  rcases hsub : tr.2.2 with - | s
  · rw [hsub] at hf
    cases hf
  · rw [hsub] at hf
    cases Option.some_inj.1 hf
    exact ⟨tr, htr, hsub⟩

theorem mem_overallWrites_row {d : Discovery} {t : Nat × Nat × String}
    (h : t ∈ overallWrites d) : d.overall = some t.1 := by
  unfold overallWrites at h
  rcases ho : d.overall with - | o
  · rw [ho] at h
    cases h
  · rw [ho] at h
    rcases List.mem_append.1 h with h1 | h1
    · split at h1
      · rcases List.mem_singleton.1 h1 with rfl
        rfl
      · cases h1
    · split at h1
      · rcases List.mem_singleton.1 h1 with rfl
        rfl
      · cases h1

theorem mem_reimbWrites_row {d : Discovery} {t : Nat × Nat × String}
    (h : t ∈ reimbWrites d) : d.reimbSub = some t.1 := by
  unfold reimbWrites at h
  rcases hr : d.reimbSub with - | rs
  · rw [hr] at h
    cases h
  · rw [hr] at h
    have h' : t ∈ (if d.costRows ≠ [] then
        [(rs, 6, sumRangeE (listMin d.costRows) (listMax d.costRows))] else []) := h
    by_cases hc : d.costRows ≠ []
    · rw [if_pos hc] at h'
      rcases List.mem_singleton.1 h' with rfl
      rfl
    · rw [if_neg hc] at h'
      cases h'

theorem mem_totalDueWrites_row {d : Discovery} {t : Nat × Nat × String}
    (h : t ∈ totalDueWrites d) : d.totalDue = some t.1 := by
  unfold totalDueWrites at h
  rcases h1 : d.totalDue with - | td
  · rw [h1] at h
    cases h
  · rcases h2 : d.overall with - | o
    · rw [h1, h2] at h
      cases h
    · rw [h1, h2] at h
      rcases List.mem_singleton.1 h with rfl
      rfl

theorem discoverWs_overall (ws : Worksheet) :
    (discoverWs ws).overall = (scanStructure (colB ws) (colD ws) ws.maxRow).overall := rfl

theorem discoverWs_reimbSub (ws : Worksheet) :
    (discoverWs ws).reimbSub = (scanStructure (colB ws) (colD ws) ws.maxRow).reimbSub := rfl

theorem discoverWs_totalDue (ws : Worksheet) :
    (discoverWs ws).totalDue = (scanStructure (colB ws) (colD ws) ws.maxRow).totalDue := rfl

theorem discoverWs_phases (ws : Worksheet) :
    (discoverWs ws).phases =
      keptPhases (colB ws) ((scanStructure (colB ws) (colD ws) ws.maxRow).overall)
        ws.maxRow (phaseHeaderRows (colB ws) ws.maxRow) := rfl

theorem labelAt_some_truthy {B : Nat → Option Val} {r : Nat} {s : String}
    (h : labelAt B r = some s) : truthyCell (B r) = true := by
  unfold labelAt at h
  rcases hb : B r with - | v
  · rw [hb] at h
    cases h
  · rw [hb] at h
    have h' : (if truthyVal v = true then some (pyStrip (pyStrVal v)) else none) = some s := h
    show truthyVal v = true
    by_cases ht : truthyVal v = true
    · exact ht
    · rw [if_neg ht] at h'
      cases h'

theorem phaseHeaderRows_pairwise (B : Nat → Option Val) (n : Nat) :
    (phaseHeaderRows B n).Pairwise (· < ·) :=
  (List.pairwise_lt_range' 1 n).filter _

theorem discover_phases_cross (ws : Worksheet) :
    (discoverWs ws).phases.Pairwise
      fun a b => ∀ x ∈ spanElems a, ∀ y ∈ spanElems b, x < y := by
  rw [discoverWs_phases]
  unfold keptPhases
  exact List.Pairwise.sublist (List.filter_sublist _)
    (buildPhases_cross _ _ _ _ (phaseHeaderRows_pairwise _ _))

theorem mem_discover_phases_buildPhases {ws : Worksheet} {tr : Nat × List Nat × Option Nat}
    (h : tr ∈ (discoverWs ws).phases) :
    tr ∈ buildPhases (colB ws) ((scanStructure (colB ws) (colD ws) ws.maxRow).overall)
      ws.maxRow (phaseHeaderRows (colB ws) ws.maxRow) := by
  rw [discoverWs_phases] at h
  exact List.mem_of_mem_filter h

theorem discover_sub_falsy {ws : Worksheet} {tr : Nat × List Nat × Option Nat}
    (h : tr ∈ (discoverWs ws).phases) {s : Nat} (hs : tr.2.2 = some s) :
    truthyCell (colB ws s) = false :=
  buildPhases_sub_falsy _ _ _ _ tr (mem_discover_phases_buildPhases h) s hs

theorem allTaskRows_pairwise (ws : Worksheet) :
    (allTaskRows (discoverWs ws)).Pairwise (· < ·) := by
  unfold allTaskRows
  rw [List.flatMap_def, List.pairwise_flatten]
  constructor
  · intro l hl
    obtain ⟨tr, htr, rfl⟩ := List.mem_map.1 hl
    exact buildPhases_tasks_pairwise _ _ _ _ tr (mem_discover_phases_buildPhases htr)
  · rw [List.pairwise_map]
    exact (discover_phases_cross ws).imp fun hab x hx y hy =>
      hab x (List.mem_append_left _ hx) y (List.mem_append_left _ hy)

theorem lastWriteTo_subWrites (L : List (Nat × List Nat × Option Nat))
    (hpw : L.Pairwise fun a b => ∀ x ∈ spanElems a, ∀ y ∈ spanElems b, x < y)
    (p : Nat) (ts : List Nat) (s : Nat) (hmem : (p, ts, some s) ∈ L) :
    lastWriteTo (L.filterMap fun tr =>
      match tr.2.2 with
      | some s' => some (s', 6, sumRangeE (listMin tr.2.1) (listMax tr.2.1))
      | none => none) s 6 = some (sumRangeE (listMin ts) (listMax ts)) := by
  induction L with
  | nil => cases hmem
  | cons a as ih =>
    rw [List.pairwise_cons] at hpw
    obtain ⟨ha, has⟩ := hpw
    rw [List.filterMap_cons]
    rcases List.mem_cons.1 hmem with heq | hmem'
    · rcases heq with rfl
      rw [lastWriteTo_cons]
      have hnone : lastWriteTo (as.filterMap fun tr =>
          match tr.2.2 with
          | some s' => some (s', 6, sumRangeE (listMin tr.2.1) (listMax tr.2.1))
          | none => none) s 6 = none := by
        apply lastWriteTo_none_of_row
        intro t ht
        obtain ⟨tr, htr, hf⟩ := List.mem_filterMap.1 ht
        rcases hsub : tr.2.2 with - | s'
        · rw [hsub] at hf
          cases hf
        · rw [hsub] at hf
          cases Option.some_inj.1 hf
          have hs_mem : s ∈ spanElems (p, ts, some s) :=
            List.mem_append_right _ (by simp)
          have hs'_mem : s' ∈ spanElems tr := by
            apply List.mem_append_right
            rw [hsub]
            simp
          have hlt := ha tr htr s hs_mem s' hs'_mem
          exact fun hc => absurd (hc ▸ hlt) (lt_irrefl _)
      rw [hnone]
      simp
    · have hrec := ih has hmem'
      rcases hfa : (match a.2.2 with
          | some s' => some ((s', 6, sumRangeE (listMin a.2.1) (listMax a.2.1)) :
              Nat × Nat × String)
          | none => none) with - | w
      · rw [hfa]
        exact hrec
      · rw [hfa, lastWriteTo_cons, hrec]

theorem rebuildWrites_assoc (d : Discovery) :
    rebuildWrites d = costWrites d ++ (subtotalWrites d ++ (overallWrites d ++
      (reimbWrites d ++ totalDueWrites d))) := by
  unfold rebuildWrites
  simp [List.append_assoc]

theorem rebuild_formulas_eq_applyWrites (ws : Worksheet) :
    rebuild_formulas ws = applyWrites ws (rebuildWrites (discoverWs ws)) := rfl

/-- C3: after re-discovery, `rebuild_formulas` writes each discovered task
row's cost cell as that row's units×rate product; each kept phase's
subtotal as a SUM over its min-to-max task span; the overall subtotal's
units and total cells as SUMs over explicit comma-separated lists; the
Total Amount Due cell as the overall subtotal plus the reimbursable
subtotal when one exists, else the overall subtotal alone; and when no
task rows exist anywhere, the overall sum formulas are left unwritten. -/
theorem rebuild_formulas_contract (ws : Worksheet) :
    (∀ r ∈ allTaskRows (discoverWs ws),
      (rebuild_formulas ws).cells r 5 = some (.s (costFormula r))) ∧
    (∀ p ts s, (p, ts, some s) ∈ (discoverWs ws).phases →
      (discoverWs ws).totalDue ≠ some s →
      (rebuild_formulas ws).cells s 6 = some (.s (sumRangeE (listMin ts) (listMax ts)))) ∧
    (∀ o, (discoverWs ws).overall = some o → allTaskRows (discoverWs ws) ≠ [] →
      (rebuild_formulas ws).cells o 3 =
        some (.s (sumListC (sortAsc (allTaskRows (discoverWs ws)))))) ∧
    (∀ o, (discoverWs ws).overall = some o → phaseSubtotalList (discoverWs ws) ≠ [] →
      (discoverWs ws).totalDue ≠ some o →
      (rebuild_formulas ws).cells o 6 =
        some (.s (sumListF (sortAsc (phaseSubtotalList (discoverWs ws)))))) ∧
    (∀ t o, (discoverWs ws).totalDue = some t → (discoverWs ws).overall = some o →
      (rebuild_formulas ws).cells t 6 =
        some (.s (totalDueFormula o (discoverWs ws).reimbSub))) ∧
    (allTaskRows (discoverWs ws) = [] →
      (∀ r, (rebuild_formulas ws).cells r 3 = ws.cells r 3) ∧
      (∀ o, (discoverWs ws).overall = some o → (discoverWs ws).totalDue ≠ some o →
        (rebuild_formulas ws).cells o 6 = ws.cells o 6)) := by
  have hscan := scanStructure_facts (colB ws) (colD ws) ws.maxRow
  refine ⟨?_, ?_, ?_, ?_, ?_, ?_⟩
  · -- (1) cost cells
    intro r hr
    rw [rebuild_formulas_eq_applyWrites, applyWrites_cells]
    have hrest : lastWriteTo (subtotalWrites (discoverWs ws) ++ (overallWrites (discoverWs ws) ++
        (reimbWrites (discoverWs ws) ++ totalDueWrites (discoverWs ws)))) r 5 = none := by
      apply lastWriteTo_none_of_col
      intro t ht
      rcases List.mem_append.1 ht with h | h
      · rw [mem_subtotalWrites h]
        decide
      rcases List.mem_append.1 h with h | h
      · rcases mem_overallWrites h with h3 | h6 <;> omega
      rcases List.mem_append.1 h with h | h
      · rw [mem_reimbWrites h]
        decide
      · rw [mem_totalDueWrites h]
        decide
    have hlast : lastWriteTo (rebuildWrites (discoverWs ws)) r 5 = some (costFormula r) := by
      rw [rebuildWrites_assoc, lastWriteTo_append_right_none hrest]
      exact lastWriteTo_map_row costFormula 5 _ (allTaskRows_pairwise ws) r hr
    rw [hlast]
  · -- (2) phase subtotals
    intro p ts s hmem htd
    have hfalsy : truthyCell (colB ws s) = false := discover_sub_falsy hmem rfl
    rw [rebuild_formulas_eq_applyWrites, applyWrites_cells]
    have hrest : lastWriteTo (overallWrites (discoverWs ws) ++ (reimbWrites (discoverWs ws) ++
        totalDueWrites (discoverWs ws))) s 6 = none := by
      apply lastWriteTo_none_of_row
      intro t ht hc
      rcases List.mem_append.1 ht with h | h
      · have ho := mem_overallWrites_row h
        have htruthy := labelAt_some_truthy (hscan.1 t.1 ho)
        rw [hc, hfalsy] at htruthy
        cases htruthy
      rcases List.mem_append.1 h with h | h
      · have hrs := mem_reimbWrites_row h
        have htruthy := labelAt_some_truthy (hscan.2.1 t.1 hrs)
        rw [hc, hfalsy] at htruthy
        cases htruthy
      · have htd' := mem_totalDueWrites_row h
        rw [hc] at htd'
        exact htd htd'
    have hlast : lastWriteTo (rebuildWrites (discoverWs ws)) s 6 =
        some (sumRangeE (listMin ts) (listMax ts)) := by
      rw [rebuildWrites_assoc]
      apply lastWriteTo_append_right_some
      rw [lastWriteTo_append_right_none hrest]
      exact lastWriteTo_subWrites _ (discover_phases_cross ws) p ts s hmem
    rw [hlast]
  · -- (3) overall units
    intro o ho hne
    rw [rebuild_formulas_eq_applyWrites, applyWrites_cells]
    have hX : lastWriteTo (reimbWrites (discoverWs ws) ++ totalDueWrites (discoverWs ws))
        o 3 = none := by
      apply lastWriteTo_none_of_col
      intro t ht
      rcases List.mem_append.1 ht with h | h
      · rw [mem_reimbWrites h]
        decide
      · rw [mem_totalDueWrites h]
        decide
    have hovform : overallWrites (discoverWs ws) =
        (if allTaskRows (discoverWs ws) ≠ [] then
          [(o, 3, sumListC (sortAsc (allTaskRows (discoverWs ws))))] else []) ++
        (if phaseSubtotalList (discoverWs ws) ≠ [] then
          [(o, 6, sumListF (sortAsc (phaseSubtotalList (discoverWs ws))))] else []) := by
      unfold overallWrites
      rw [ho]
    have hov : lastWriteTo (overallWrites (discoverWs ws)) o 3 =
        some (sumListC (sortAsc (allTaskRows (discoverWs ws)))) := by
      rw [hovform, lastWriteTo_append_right_none, if_pos hne, lastWriteTo_singleton]
      · simp
      · apply lastWriteTo_none_of_col
        intro t ht
        split at ht
        · rcases List.mem_singleton.1 ht with rfl
          simp
        · cases ht
    have hlast : lastWriteTo (rebuildWrites (discoverWs ws)) o 3 =
        some (sumListC (sortAsc (allTaskRows (discoverWs ws)))) := by
      rw [rebuildWrites_assoc]
      apply lastWriteTo_append_right_some
      apply lastWriteTo_append_right_some
      rw [lastWriteTo_append_right_none hX]
      exact hov
    rw [hlast]
  · -- (4) overall total
    intro o ho hsne htdne
    rw [rebuild_formulas_eq_applyWrites, applyWrites_cells]
    have hX : lastWriteTo (reimbWrites (discoverWs ws) ++ totalDueWrites (discoverWs ws))
        o 6 = none := by
      apply lastWriteTo_none_of_row
      intro t ht hc
      rcases List.mem_append.1 ht with h | h
      · have hrs := mem_reimbWrites_row h
        exact hscan.2.2 o t.1 ho hrs hc.symm
      · have htd' := mem_totalDueWrites_row h
        rw [hc] at htd'
        exact htdne htd'
    have hovform : overallWrites (discoverWs ws) =
        (if allTaskRows (discoverWs ws) ≠ [] then
          [(o, 3, sumListC (sortAsc (allTaskRows (discoverWs ws))))] else []) ++
        (if phaseSubtotalList (discoverWs ws) ≠ [] then
          [(o, 6, sumListF (sortAsc (phaseSubtotalList (discoverWs ws))))] else []) := by
      unfold overallWrites
      rw [ho]
    have hov : lastWriteTo (overallWrites (discoverWs ws)) o 6 =
        some (sumListF (sortAsc (phaseSubtotalList (discoverWs ws)))) := by
      rw [hovform]
      apply lastWriteTo_append_right_some
      rw [if_pos hsne, lastWriteTo_singleton]
      simp
    have hlast : lastWriteTo (rebuildWrites (discoverWs ws)) o 6 =
        some (sumListF (sortAsc (phaseSubtotalList (discoverWs ws)))) := by
      rw [rebuildWrites_assoc]
      apply lastWriteTo_append_right_some
      apply lastWriteTo_append_right_some
      rw [lastWriteTo_append_right_none hX]
      exact hov
    rw [hlast]
  · -- (5) total amount due
    intro t o htd ho
    rw [rebuild_formulas_eq_applyWrites, applyWrites_cells]
    have htdform : totalDueWrites (discoverWs ws) =
        [(t, 6, totalDueFormula o ((discoverWs ws).reimbSub))] := by
      unfold totalDueWrites
      rw [htd, ho]
    have hlast : lastWriteTo (rebuildWrites (discoverWs ws)) t 6 =
        some (totalDueFormula o ((discoverWs ws).reimbSub)) := by
      rw [rebuildWrites_assoc]
      apply lastWriteTo_append_right_some
      apply lastWriteTo_append_right_some
      apply lastWriteTo_append_right_some
      apply lastWriteTo_append_right_some
      rw [htdform, lastWriteTo_singleton]
      simp
    rw [hlast]
  · -- (6) no task rows anywhere
    intro hnil
    have hpnil : (discoverWs ws).phases = [] := by
      rw [List.eq_nil_iff_forall_not_mem]
      intro tr htr
      have h2 : tr.2.1 = [] := by
        rw [List.eq_nil_iff_forall_not_mem]
        intro x hx
        have hmem : x ∈ allTaskRows (discoverWs ws) := List.mem_flatMap.2 ⟨tr, htr, hx⟩
        rw [hnil] at hmem
        cases hmem
      have h1 := htr
      rw [discoverWs_phases] at h1
      unfold keptPhases at h1
      have hne := (List.mem_filter.1 h1).2
      rw [h2] at hne
      simp at hne
    have hsubnil : phaseSubtotalList (discoverWs ws) = [] := by
      unfold phaseSubtotalList
      rw [hpnil]
      rfl
    have hcostnil : costWrites (discoverWs ws) = [] := by
      unfold costWrites allTaskRows
      rw [hpnil]
      rfl
    have hsubwnil : subtotalWrites (discoverWs ws) = [] := by
      unfold subtotalWrites
      rw [hpnil]
      rfl
    have hovnil : overallWrites (discoverWs ws) = [] := by
      unfold overallWrites
      rcases ho : (discoverWs ws).overall with - | o
      · rfl
      · simp [hnil, hsubnil]
    constructor
    · intro r
      rw [rebuild_formulas_eq_applyWrites, applyWrites_cells]
      have hnone : lastWriteTo (rebuildWrites (discoverWs ws)) r 3 = none := by
        apply lastWriteTo_none_of_col
        intro t ht
        rw [rebuildWrites_assoc, hcostnil, hsubwnil, hovnil] at ht
        simp only [List.nil_append] at ht
        rcases List.mem_append.1 ht with h | h
        · rw [mem_reimbWrites h]
          decide
        · rw [mem_totalDueWrites h]
          decide
      rw [hnone]
    · intro o ho htdne
      rw [rebuild_formulas_eq_applyWrites, applyWrites_cells]
      have hnone : lastWriteTo (rebuildWrites (discoverWs ws)) o 6 = none := by
        apply lastWriteTo_none_of_row
        intro t ht hc
        rw [rebuildWrites_assoc, hcostnil, hsubwnil, hovnil] at ht
        simp only [List.nil_append] at ht
        rcases List.mem_append.1 ht with h | h
        · have hrs := mem_reimbWrites_row h
          exact hscan.2.2 o t.1 ho hrs hc.symm
        · have htd' := mem_totalDueWrites_row h
          rw [hc] at htd'
          exact htdne htd'
      rw [hnone]

/-- Witness for C3 at the concrete post-pruning example worksheet. -/
theorem rebuild_formulas_contract_witness :
    (rebuild_formulas exampleSheet).cells 11 5 = some (.s "=C11*D11") ∧
    (rebuild_formulas exampleSheet).cells 12 6 = some (.s "=SUM(E11:E11)") ∧
    (rebuild_formulas exampleSheet).cells 13 3 = some (.s "=SUM(C11)") ∧
    (rebuild_formulas exampleSheet).cells 13 6 = some (.s "=SUM(F12)") ∧
    (rebuild_formulas exampleSheet).cells 17 6 = some (.s "=F13+F16") := by
  obtain ⟨h1, h2, h3, h4, h5, -⟩ := rebuild_formulas_contract exampleSheet
  refine ⟨?_, ?_, ?_, ?_, ?_⟩
  · exact (h1 11 (by decide)).trans (by decide)
  · exact (h2 10 [11] 12 (by decide) (by decide)).trans (by decide)
  · exact (h3 13 (by decide) (by decide)).trans (by decide)
  · exact (h4 13 (by decide) (by decide) (by decide)).trans (by decide)
  · exact (h5 17 13 (by decide) (by decide)).trans (by decide)

/-- Witness for C8 at a concrete over-long project identifier. -/
theorem make_sheet_name_safe_witness :
    (make_sheet_name "Really Long Client Name: 24-119 Overflow" " A").length ≤
      MAX_SHEET_NAME_LENGTH ∧
    ':' ∉ (make_sheet_name "Really Long Client Name: 24-119 Overflow" " A").data := by
  obtain ⟨⟨hlen, hchars⟩, -⟩ := make_sheet_name_safe "Really Long Client Name: 24-119 Overflow"
  exact ⟨hlen, fun hmem => (hchars ':' hmem).2 rfl⟩

/-- Witness for C4 at the concrete example worksheet. -/
theorem rebuild_formulas_idempotent_witness :
    rebuild_formulas (rebuild_formulas exampleSheet) = rebuild_formulas exampleSheet :=
  (rebuild_formulas_idempotent exampleSheet).2

/-- Witness for the C1 decomposition at a concrete two-entry input. -/
theorem detail_matrix_decomposition_witness :
    detailSheetHours [⟨"A: 1", none, "Ann", 1, "DP", "SD", "w"⟩,
        ⟨"A: 1", none, "Ann", 2, "", "SD", "w"⟩] "A: 1" =
      matrixSliceSum [⟨"A: 1", none, "Ann", 1, "DP", "SD", "w"⟩,
        ⟨"A: 1", none, "Ann", 2, "", "SD", "w"⟩] "A: 1" +
      ((([⟨"A: 1", none, "Ann", 1, "DP", "SD", "w"⟩,
        ⟨"A: 1", none, "Ann", 2, "", "SD", "w"⟩] : List Entry).filter
          (uncodedFor "A: 1")).map Entry.hours).sum :=
  detail_matrix_decomposition _ "A: 1"
